import Mathlib

/-!
Verification development for the MediaOrganizer repository.

The engine (src/handler.py, src/media_file.py) is shallowly embedded.
Python strings are Lean `String`s; all string manipulation is done on the
underlying `List Char` with structural recursion so that every definition
evaluates inside the kernel.  Python dictionaries become association lists
with first-match lookup and in-place overwrite on update.  The filesystem
that the Python code mutates through `pathlib`/`shutil` is made an explicit
value of type `FS` that is threaded through the embedded operations; an
operation that performs no writes returns it unchanged.  The MD5 content
digest is modelled as an abstract content-determined function (equal file
bytes give equal hashes).  Floating-point derived metadata (`file_size_mb`,
video durations, fps) is not used by any verified statement and is omitted
from the embedded metadata map.
-/

namespace MediaOrganizer

/-- Python `str.split()` whitespace (ASCII fragment). -/
def isPySpace (c : Char) : Bool :=
  c = ' ' || c = '\t' || c = '\n' || c = '\r' || c = '\x0b' || c = '\x0c'

/-- The characters kept by the filename sanitizer:
`c.isalnum() or c in '._-() '` (ASCII fragment of `isalnum`). -/
def allowedFilenameChar (c : Char) : Bool :=
  c.isAlphanum || c = '.' || c = '_' || c = '-' || c = '(' || c = ')' || c = ' '

/-- Last path component (text after the final `/`), i.e. `pathlib.Path.name`. -/
def lastComponent (l : List Char) : List Char :=
  (l.reverse.takeWhile (· ≠ '/')).reverse

/-- The digits after the last dot of the final component, reversed
(helper for `pathlib`'s `suffix`/`stem` computation). -/
def afterLastDotRev (n : List Char) : List Char :=
  n.reverse.takeWhile (· ≠ '.')

/-- Whether the final component `n` has a proper extension in the sense of
`pathlib`: a dot at position `i` with `0 < i < len(n) - 1`. -/
def hasProperExt (n : List Char) : Bool :=
  let pre := afterLastDotRev n
  decide (pre.length < n.length) && decide (0 < pre.length) &&
    decide (pre.length + 1 < n.length)

/-- `pathlib.Path.suffix` on the character list of a path. -/
def pathSuffixL (l : List Char) : List Char :=
  let n := lastComponent l
  if hasProperExt n then '.' :: (afterLastDotRev n).reverse else []

/-- `pathlib.Path.stem` on the character list of a path. -/
def pathStemL (l : List Char) : List Char :=
  let n := lastComponent l
  if hasProperExt n then n.take (n.length - (afterLastDotRev n).length - 1) else n

def pathName (p : String) : String := ⟨lastComponent p.data⟩

def pathSuffix (p : String) : String := ⟨pathSuffixL p.data⟩

def pathStem (p : String) : String := ⟨pathStemL p.data⟩

def toLowerStr (s : String) : String := ⟨s.data.map Char.toLower⟩

/-- Decimal digit character. -/
def digitChar (n : Nat) : Char := Char.ofNat (48 + n)

/-- Decimal digits of `n`, fuel-driven so that it is structurally recursive
and kernel-evaluable; `natDecimalL` supplies sufficient fuel. -/
def natDecAux : Nat → Nat → List Char
  | 0, _ => []
  | fuel + 1, n =>
    if n < 10 then [digitChar n] else natDecAux fuel (n / 10) ++ [digitChar (n % 10)]

/-- Decimal rendering of a natural number (Python `f"{n}"`). -/
def natDecimalL (n : Nat) : List Char := natDecAux (n + 1) n

def natDecimal (n : Nat) : String := ⟨natDecimalL n⟩

/-- Value of a digit character. -/
def charVal (c : Char) : Nat := c.toNat - 48

/-- Decimal valuation of a character list (left inverse of `natDecimalL`). -/
def listVal (l : List Char) : Nat := l.foldl (fun a c => a * 10 + charVal c) 0

/-- Python `datetime` restricted to the calendar fields the engine reads. -/
structure PyDateTime where
  year : Nat
  month : Nat
  day : Nat
  hour : Nat
  minute : Nat
  second : Nat
deriving DecidableEq

/-- Two-digit field rendering, Python `f"{n:02d}"`. -/
def pad2 (n : Nat) : String := if n < 10 then "0" ++ natDecimal n else natDecimal n

/-- A metadata value: the engine stores strings, integers, timestamps and
booleans in its metadata dictionaries. -/
inductive MetaVal where
  | s (v : String)
  | n (v : Nat)
  | d (v : PyDateTime)
  | b (v : Bool)
deriving DecidableEq

/-- Python `str(value)` on a metadata value. -/
def MetaVal.pyStr : MetaVal → String
  | .s v => v
  | .n v => natDecimal v
  | .d v =>
    natDecimal v.year ++ "-" ++ pad2 v.month ++ "-" ++ pad2 v.day ++ " " ++
      pad2 v.hour ++ ":" ++ pad2 v.minute ++ ":" ++ pad2 v.second
  | .b v => if v then "True" else "False"

/-- Association-list dictionary: first-match lookup. -/
def dictGet {α : Type} (m : List (String × α)) (k : String) : Option α :=
  match m with
  | [] => none
  | (k', v) :: rest => if k' = k then some v else dictGet rest k

/-- Set one key, overwriting in place (Python `d[k] = v`). -/
def dictSet {α : Type} (m : List (String × α)) (k : String) (v : α) :
    List (String × α) :=
  match m with
  | [] => [(k, v)]
  | (k', v') :: rest => if k' = k then (k, v) :: rest else (k', v') :: dictSet rest k v

/-- Python `d.update(u)`. -/
def dictUpdate {α : Type} (m u : List (String × α)) : List (String × α) :=
  u.foldl (fun a kv => dictSet a kv.1 kv.2) m

/-- `d.get(k, default)` for string-valued reads followed by `str(...)`. -/
def dictGetStrD (m : List (String × MetaVal)) (k : String) (dflt : String) : String :=
  match dictGet m k with
  | some v => v.pyStr
  | none => dflt

/-- Per-file data held by the modelled filesystem: raw bytes plus the
decodable tag metadata that Pillow / ffprobe would surface.  `image`
is `none` when Pillow cannot decode the bytes, `video` likewise for
ffprobe; both extraction helpers swallow that failure internally. -/
structure ImgData where
  width : Nat
  height : Nat
  dateTaken : Option PyDateTime
  cameraMake : Option String
  cameraModel : Option String
deriving DecidableEq

structure VidData where
  width : Nat
  height : Nat
  dateCreated : Option PyDateTime
deriving DecidableEq

structure FileData where
  content : String
  created : PyDateTime
  modified : PyDateTime
  image : Option ImgData
  video : Option VidData
deriving DecidableEq

/-- The explicit filesystem: regular files (path, data) and directories. -/
structure FS where
  files : List (String × FileData)
  dirs : List String
deriving DecidableEq

def FS.lookupFile (fs : FS) (p : String) : Option FileData :=
  dictGet fs.files p

def FS.fileExistsB (fs : FS) (p : String) : Bool :=
  (fs.lookupFile p).isSome

def FS.dirExistsB (fs : FS) (p : String) : Bool :=
  fs.dirs.contains p

/-- `Path.exists()`: true for files and directories. -/
def FS.pathExistsB (fs : FS) (p : String) : Bool :=
  fs.fileExistsB p || fs.dirExistsB p

/-- `Path.mkdir(parents=True, exist_ok=True)` for the destination parent;
only the directory set changes. -/
def FS.mkdirParents (fs : FS) (d : String) : FS :=
  { fs with dirs := d :: fs.dirs }

def FS.removeFile (fs : FS) (p : String) : FS :=
  { fs with files := fs.files.filter (fun e => e.1 ≠ p) }

def FS.insertFile (fs : FS) (p : String) (fd : FileData) : FS :=
  { fs with files := (p, fd) :: fs.files }

/-- Content digest used for duplicate detection.  The real code computes a
streamed MD5 hex digest; the model keeps only the properties the engine
relies on: the digest is a nonempty string determined by the file bytes. -/
def md5Hex (content : String) : String := "h:" ++ content

/-- In-memory record for one media file (`MediaFile` dataclass):
path, type string, extracted metadata, manual metadata. -/
structure MediaFile where
  path : String
  type : String
  metadata : List (String × MetaVal)
  manual_metadata : List (String × MetaVal)
deriving DecidableEq

/-- Embedding of Python's `mimetypes.guess_type` (guess by filename only),
restricted to the entries of CPython's built-in `types_map` for the
extensions that occur in the engine's extension sets.  Raw camera formats
(`.cr2`, `.nef`, `.arw`, `.dng`, `.orf`, `.rw2`, `.pef`, `.srw`, `.raw`)
have no entry in the built-in table, so they yield `none`. -/
def mimetypesGuessType (p : String) : Option String :=
  dictGet
    [(".jpg", "image/jpeg"), (".jpeg", "image/jpeg"), (".png", "image/png"),
     (".gif", "image/gif"), (".bmp", "image/bmp"), (".tiff", "image/tiff"),
     (".tif", "image/tiff"), (".webp", "image/webp"), (".heic", "image/heic"),
     (".heif", "image/heif"), (".mp4", "video/mp4"), (".mov", "video/quicktime"),
     (".avi", "video/x-msvideo"), (".webm", "video/webm"),
     (".mpeg", "video/mpeg"), (".mpg", "video/mpeg")]
    (toLowerStr (pathSuffix p))

def strHasMimeClass (m : String) (cls : List Char) : Bool :=
  cls.isPrefixOf m.data

/-- `MediaFile._detect_file_type`: MIME sniff first, then the dataclass's own
(smaller) extension fallback sets, else `ValueError: Unsupported file type`. -/
def MediaFile.detect_file_type (path : String) : Except String String :=
  let sniffed : Option String :=
    match mimetypesGuessType path with
    | some m =>
      if strHasMimeClass m "image/".data then some "image"
      else if strHasMimeClass m "video/".data then some "video"
      else none
    | none => none
  match sniffed with
  | some t => .ok t
  | none =>
    let image_extensions := [".jpg", ".jpeg", ".png", ".gif", ".bmp", ".tiff",
      ".webp", ".heic", ".raw"]
    let video_extensions := [".mp4", ".avi", ".mov", ".mkv", ".wmv", ".flv",
      ".webm", ".m4v", ".3gp"]
    let ext := toLowerStr (pathSuffix path)
    if image_extensions.contains ext then .ok "image"
    else if video_extensions.contains ext then .ok "video"
    else .error ("Unsupported file type: " ++ ext)

/-- `MediaFile.__post_init__`: the path must exist, the type is detected
(detection failure aborts construction), a caller-supplied type outside
image/video is replaced by the detected one, and a disagreeing supplied
type raises (`TypeMismatch`). -/
def MediaFile.create (fs : FS) (path : String) (ty : String) :
    Except String MediaFile :=
  if ¬ fs.pathExistsB path then .error ("File not found: " ++ path)
  else
    match MediaFile.detect_file_type path with
    | .error e => .error e
    | .ok detected =>
      if ty ≠ "image" ∧ ty ≠ "video" then .ok ⟨path, detected, [], []⟩
      else if ty ≠ detected then
        .error ("Provided type does not match detected type")
      else .ok ⟨path, ty, [], []⟩

/-- `MediaFile._extract_image_metadata` (Pillow present in the model): basic
image info plus the EXIF-derived fields.  EXIF `DateTime` parsing is
abstracted: `ImgData.dateTaken` is the already-parsed timestamp, `none`
when the tag is absent or fails to parse.  The raw `exif` map, `format`,
`mode` and `has_gps` entries are carried by no verified statement and are
omitted. -/
def extractImageMetadata (md : List (String × MetaVal)) (fd : FileData) :
    List (String × MetaVal) :=
  match fd.image with
  | none => md
  | some img =>
    let md := dictUpdate md
      [("width", .n img.width), ("height", .n img.height),
       ("resolution", .s (natDecimal img.width ++ "x" ++ natDecimal img.height))]
    let md := match img.dateTaken with
      | some dt => dictSet md "date_taken" (.d dt)
      | none => md
    let md := match img.cameraMake with
      | some v => dictSet md "camera_make" (.s v)
      | none => md
    match img.cameraModel with
    | some v => dictSet md "camera_model" (.s v)
    | none => md

/-- `MediaFile._extract_video_metadata` (ffmpeg present in the model): the
stream fields used downstream; duration/bitrate/fps floats are omitted. -/
def extractVideoMetadata (md : List (String × MetaVal)) (fd : FileData) :
    List (String × MetaVal) :=
  match fd.video with
  | none => md
  | some vid =>
    let md := dictUpdate md
      [("width", .n vid.width), ("height", .n vid.height),
       ("resolution", .s (natDecimal vid.width ++ "x" ++ natDecimal vid.height))]
    match vid.dateCreated with
    | some dt => dictSet md "date_created" (.d dt)
    | none => md

/-- `MediaFile.extract_metadata`: on a readable file, update the metadata
with the universal fields then the type-specific ones; when file access
fails the exception is caught and, only if the metadata was still empty,
replaced by the minimal `{filename, error}` map. -/
def MediaFile.extract_metadata (fs : FS) (r : MediaFile) : MediaFile :=
  match fs.lookupFile r.path with
  | none =>
    if r.metadata.isEmpty then
      { r with metadata :=
          [("filename", .s (pathName r.path)),
           ("error", .s ("stat failed: " ++ r.path))] }
    else r
  | some fd =>
    let md := dictUpdate r.metadata
      [("filename", .s (pathName r.path)),
       ("file_size", .n fd.content.length),
       ("created_date", .d fd.created),
       ("modified_date", .d fd.modified),
       ("file_extension", .s (toLowerStr (pathSuffix r.path))),
       ("file_hash", .s (md5Hex fd.content))]
    let md :=
      if r.type = "image" then extractImageMetadata md fd
      else if r.type = "video" then extractVideoMetadata md fd
      else md
    { r with metadata := md }

/-- `MediaFile.get_combined_metadata`: extracted metadata overlaid with the
manual metadata, manual winning on key conflicts. -/
def MediaFile.get_combined_metadata (r : MediaFile) : List (String × MetaVal) :=
  dictUpdate r.metadata r.manual_metadata

/-- Python `template.format(**vars)` for templates made of plain text and
`\x7bname\x7d` placeholders (the only template forms the engine's callers use;
`\x7b\x7b` escapes are not modelled).  An unknown placeholder or an unterminated
one raises, which the embedding reports as `.error`.  The second argument
accumulates the characters of a placeholder currently being read. -/
def pyFormatAux (vars : List (String × String)) :
    List Char → Option (List Char) → Except String (List Char)
  | [], none => .ok []
  | [], some _ => .error "Single open brace encountered in format string"
  | c :: rest, none =>
    if c = '\x7b' then pyFormatAux vars rest (some [])
    else (c :: ·) <$> pyFormatAux vars rest none
  | c :: rest, some acc =>
    if c = '\x7d' then
      match dictGet vars (⟨acc.reverse⟩ : String) with
      | none => .error ("Template variable " ++ (⟨acc.reverse⟩ : String) ++
          " not available in metadata")
      | some v => (v.data ++ ·) <$> pyFormatAux vars rest none
    else pyFormatAux vars rest (some (c :: acc))

def pyFormat (vars : List (String × String)) (tpl : String) :
    Except String (List Char) :=
  pyFormatAux vars tpl.data none

/-- Python `s.split()`: split on whitespace runs, dropping empty pieces.
The accumulator holds the current token reversed. -/
def pySplitAux : List Char → List Char → List (List Char)
  | [], acc => if acc.isEmpty then [] else [acc.reverse]
  | c :: rest, acc =>
    if isPySpace c then
      if acc.isEmpty then pySplitAux rest [] else acc.reverse :: pySplitAux rest []
    else pySplitAux rest (c :: acc)

def pySplit (l : List Char) : List (List Char) := pySplitAux l []

/-- Python `' '.join(tokens)`. -/
def joinSpaces : List (List Char) → List Char
  | [] => []
  | [t] => t
  | t :: ts => t ++ ' ' :: joinSpaces ts

/-- `' '.join(filename.split())`. -/
def collapseSpaces (l : List Char) : List Char := joinSpaces (pySplit l)

/-- The filename template variable dictionary built by
`MediaFile.generate_output_filename`, in the order the source builds it:
base entries, then `manual_`-prefixed manual keys, then the date fields,
dimensions and camera fields. -/
def MediaFile.templateVars (r : MediaFile) : List (String × String) :=
  let combined := r.get_combined_metadata
  let vars := [("original_name", pathStem r.path), ("extension", pathSuffix r.path),
    ("type", r.type), ("year", ""), ("month", ""), ("day", ""), ("hour", ""),
    ("minute", ""), ("second", ""), ("width", ""), ("height", ""),
    ("resolution", ""), ("camera_make", ""), ("camera_model", ""),
    ("file_hash", ⟨(dictGetStrD combined "file_hash" "").data.take 8⟩)]
  let vars := r.manual_metadata.foldl
    (fun a kv => dictSet a ("manual_" ++ kv.1) kv.2.pyStr) vars
  let dateSource : Option MetaVal :=
    if r.type = "image" ∧ (dictGet combined "date_taken").isSome then
      dictGet combined "date_taken"
    else if r.type = "video" ∧ (dictGet combined "date_created").isSome then
      dictGet combined "date_created"
    else dictGet combined "created_date"
  let vars := match dateSource with
    | some (.d dt) => dictUpdate vars
        [("year", natDecimal dt.year), ("month", pad2 dt.month),
         ("day", pad2 dt.day), ("hour", pad2 dt.hour),
         ("minute", pad2 dt.minute), ("second", pad2 dt.second)]
    | _ => vars
  let vars := match dictGet combined "width" with
    | some v => dictSet vars "width" v.pyStr
    | none => vars
  let vars := match dictGet combined "height" with
    | some v => dictSet vars "height" v.pyStr
    | none => vars
  let vars := match dictGet combined "resolution" with
    | some v => dictSet vars "resolution" v.pyStr
    | none => vars
  if r.type = "image" then
    let vars := dictSet vars "camera_make" (dictGetStrD combined "camera_make" "")
    dictSet vars "camera_model" (dictGetStrD combined "camera_model" "")
  else vars

/-- `MediaFile.generate_output_filename`: substitute the template variables,
then drop every character outside the allowed set, then collapse whitespace
runs (`' '.join(filename.split())`).  Substitution failures (unknown
placeholder, malformed template) surface as `.error`. -/
def MediaFile.generate_output_filename (r : MediaFile) (tpl : String) :
    Except String String :=
  match pyFormat (MediaFile.templateVars r) tpl with
  | .error e => .error e
  | .ok cs => .ok ⟨collapseSpaces (cs.filter allowedFilenameChar)⟩

/-- A destination path as the organizer builds it: the directory part
(`output_directory / folder_path`) and the file name.  Rendered file names
contain no `/` (the sanitizer drops it), so this split agrees with
`pathlib`'s `parent`/`name` view of the joined path. -/
structure PPath where
  dir : String
  base : String
deriving DecidableEq

def PPath.str (p : PPath) : String := p.dir ++ "/" ++ p.base

/-- The conflict name `f"\x7bstem\x7d_\x7bcounter\x7d\x7bsuffix\x7d"`. -/
def conflictName (stem sfx : String) (k : Nat) : String :=
  stem ++ "_" ++ natDecimal k ++ sfx

def conflictCandidate (dest : PPath) (k : Nat) : PPath :=
  ⟨dest.dir, conflictName (pathStem dest.base) (pathSuffix dest.base) k⟩

/-- The `while destination.exists()` loop of `MediaFile.move`/`copy`,
fuel-driven: starting from counter `k`, return the first counter whose
candidate name is free.  `Path.exists()` is true for regular files and for
directories, so occupancy is `pathExistsB`.  `resolveConflict` supplies
fuel that provably suffices (`fs.files.length + fs.dirs.length + 1`
candidate names cannot all be occupied). -/
def conflictSearch (fs : FS) (dest : PPath) : Nat → Nat → Nat
  | 0, k => k
  | fuel + 1, k =>
    if fs.pathExistsB (conflictCandidate dest k).str then
      conflictSearch fs dest fuel (k + 1)
    else k

/-- Conflict policy of `MediaFile.move`/`MediaFile.copy`: if the destination
exists (as a file or as a directory), take `stem_k + suffix` for the first
free `k` starting at 1. -/
def resolveConflict (fs : FS) (dest : PPath) : PPath :=
  if fs.pathExistsB dest.str then
    conflictCandidate dest
      (conflictSearch fs dest (fs.files.length + fs.dirs.length + 1) 1)
  else dest

/-- `MediaFile.move` on the filesystem: create the parent directory, resolve
conflicts, then relocate the bytes.  `shutil.move` of a missing source
raises; the embedding returns the filesystem as mutated so far (the mkdir
already happened) together with the error. -/
def fsMove (fs : FS) (src : String) (dest : PPath) :
    FS × Except String String :=
  let fs1 := fs.mkdirParents dest.dir
  let destR := resolveConflict fs1 dest
  match fs1.lookupFile src with
  | none => (fs1, .error "Failed to move file")
  | some fd => ((fs1.removeFile src).insertFile destR.str fd, .ok destR.str)

/-- `MediaFile.copy`: like `fsMove` but the source stays in place. -/
def fsCopy (fs : FS) (src : String) (dest : PPath) :
    FS × Except String String :=
  let fs1 := fs.mkdirParents dest.dir
  let destR := resolveConflict fs1 dest
  match fs1.lookupFile src with
  | none => (fs1, .error "Failed to copy file")
  | some fd => (fs1.insertFile destR.str fd, .ok destR.str)

/-- Scan statistics (`MediaHandler.scan_stats`). -/
structure ScanStats where
  total_files_found : Nat
  images_found : Nat
  videos_found : Nat
  skipped_files : Nat
  errors : Nat
  duplicates_found : Nat
deriving DecidableEq

def emptyScanStats : ScanStats := ⟨0, 0, 0, 0, 0, 0⟩

/-- Catalog state (`MediaHandler`): record list, first-seen hash index,
statistics. -/
structure Handler where
  media_files : List MediaFile
  file_hashes : List (String × String)
  scan_stats : ScanStats
deriving DecidableEq

def emptyHandler : Handler := ⟨[], [], emptyScanStats⟩

def IMAGE_EXTENSIONS : List String :=
  [".jpg", ".jpeg", ".png", ".gif", ".bmp", ".tiff", ".tif",
   ".webp", ".heic", ".heif", ".raw", ".cr2", ".nef", ".arw",
   ".dng", ".orf", ".rw2", ".pef", ".srw"]

def VIDEO_EXTENSIONS : List String :=
  [".mp4", ".avi", ".mov", ".mkv", ".wmv", ".flv", ".webm",
   ".m4v", ".3gp", ".ogv", ".f4v", ".asf", ".rm", ".rmvb",
   ".vob", ".ts", ".mts", ".m2ts"]

/-- `MediaHandler._is_media_file`. -/
def isMediaFile (p : String) : Bool :=
  let ext := toLowerStr (pathSuffix p)
  IMAGE_EXTENSIONS.contains ext || VIDEO_EXTENSIONS.contains ext

/-- `MediaHandler._detect_file_type`: the handler's (larger) extension sets
first, then the MIME sniff, else `None`. -/
def handlerDetectFileType (p : String) : Option String :=
  let ext := toLowerStr (pathSuffix p)
  if IMAGE_EXTENSIONS.contains ext then some "image"
  else if VIDEO_EXTENSIONS.contains ext then some "video"
  else
    match mimetypesGuessType p with
    | some m =>
      if strHasMimeClass m "image/".data then some "image"
      else if strHasMimeClass m "video/".data then some "video"
      else none
    | none => none

/-- The stored hash of a record as read back by `_add_media_file`
(`media_file.metadata.get('file_hash')`). -/
def recHash (r : MediaFile) : Option String :=
  match dictGet r.metadata "file_hash" with
  | some (.s h) => some h
  | _ => none

/-- Python truthiness of `file_hash` (`None` and `''` are falsy). -/
def recHashTruthy (r : MediaFile) : Option String :=
  match recHash r with
  | some h => if h = "" then none else some h
  | none => none

/-- `MediaHandler._add_media_file`: extract metadata, then either count a
duplicate (hash already indexed) or append the record, index its hash when
truthy, and bump the per-type counters. -/
def addMediaFile (fs : FS) (h : Handler) (mf : MediaFile) : Handler :=
  let mf := mf.extract_metadata fs
  match recHashTruthy mf with
  | some hsh =>
    if (dictGet h.file_hashes hsh).isSome then
      { h with scan_stats :=
          { h.scan_stats with
            duplicates_found := h.scan_stats.duplicates_found + 1 } }
    else
      { media_files := h.media_files ++ [mf],
        file_hashes := dictSet h.file_hashes hsh mf.path,
        scan_stats :=
          { h.scan_stats with
            images_found := h.scan_stats.images_found +
              (if mf.type = "image" then 1 else 0),
            videos_found := h.scan_stats.videos_found +
              (if mf.type = "video" then 1 else 0) } }
  | none =>
    { h with
      media_files := h.media_files ++ [mf],
      scan_stats :=
        { h.scan_stats with
          images_found := h.scan_stats.images_found +
            (if mf.type = "image" then 1 else 0),
          videos_found := h.scan_stats.videos_found +
            (if mf.type = "video" then 1 else 0) } }

/-- `MediaHandler._create_media_file`: classify, then construct; a `None`
classification counts as skipped, a construction failure as an error. -/
def createMediaFile (fs : FS) (h : Handler) (p : String) :
    Handler × Option MediaFile :=
  match handlerDetectFileType p with
  | none =>
    ({ h with scan_stats :=
        { h.scan_stats with skipped_files := h.scan_stats.skipped_files + 1 } },
     none)
  | some t =>
    match MediaFile.create fs p t with
    | .ok mf => (h, some mf)
    | .error _ =>
      ({ h with scan_stats :=
          { h.scan_stats with errors := h.scan_stats.errors + 1 } },
       none)

/-- `MediaHandler._process_single_file` over a list of candidate paths.
The parallel branch of the source applies exactly the same per-file steps,
merely in an arbitrary completion order; the catalog theorems below are
proved for every input list, which covers every such order. -/
def processFiles (fs : FS) (h : Handler) : List String → Handler
  | [] => h
  | p :: rest =>
    let (h, mf) := createMediaFile fs h p
    let h := match mf with
      | some mf => addMediaFile fs h mf
      | none => h
    processFiles fs h rest

/-- Stable insertion sort by path string, embedding the final
`media_files.sort(key=lambda x: str(x.path))`. -/
def insertByPath (x : MediaFile) : List MediaFile → List MediaFile
  | [] => [x]
  | y :: ys => if x.path < y.path then x :: y :: ys else y :: insertByPath x ys

def sortByPath : List MediaFile → List MediaFile
  | [] => []
  | x :: xs => insertByPath x (sortByPath xs)

inductive ScanErr where
  | directoryNotFound
  | notADirectory
deriving DecidableEq

structure ScanResult where
  handler : Handler
  fs : FS
  err : Option ScanErr
deriving DecidableEq

/-- Files found by `directory.rglob('*')` in the model: every file whose
path lies strictly under the directory. -/
def rglobAll (fs : FS) (dir : String) : List String :=
  (fs.files.map Prod.fst).filter (fun p => (dir ++ "/").data.isPrefixOf p.data)

/-- `MediaHandler.scan_directory` with the default glob pattern `'*'` and
recursive scanning.  The precondition checks come first; only then are the
statistics, record list and hash index cleared and the files processed.
The scan performs no filesystem writes, so every branch returns the
filesystem unchanged. -/
def scan_directory (fs : FS) (h : Handler) (dir : String) : ScanResult :=
  if ¬ fs.pathExistsB dir then ⟨h, fs, some .directoryNotFound⟩
  else if ¬ fs.dirExistsB dir then ⟨h, fs, some .notADirectory⟩
  else
    let h0 : Handler := ⟨[], [], emptyScanStats⟩
    let media := (rglobAll fs dir).filter isMediaFile
    let h0 := { h0 with scan_stats :=
        { h0.scan_stats with total_files_found := media.length } }
    let h1 := processFiles fs h0 media
    ⟨{ h1 with media_files := sortByPath h1.media_files }, fs, none⟩

/-- `MediaHandler._get_folder_template_vars`: reads the record's extracted
metadata (not the combined view), date preference `date_taken` (image) /
`date_created` (video) / `created_date`, camera fields default `Unknown`
for images. -/
def folderTemplateVars (r : MediaFile) : List (String × String) :=
  let vars := [("type", r.type), ("year", ""), ("month", ""), ("day", ""),
    ("camera_make", ""), ("camera_model", "")]
  let dateSource : Option MetaVal :=
    if r.type = "image" ∧ (dictGet r.metadata "date_taken").isSome then
      dictGet r.metadata "date_taken"
    else if r.type = "video" ∧ (dictGet r.metadata "date_created").isSome then
      dictGet r.metadata "date_created"
    else dictGet r.metadata "created_date"
  let vars := match dateSource with
    | some (.d dt) => dictUpdate vars
        [("year", natDecimal dt.year), ("month", pad2 dt.month),
         ("day", pad2 dt.day)]
    | _ => vars
  if r.type = "image" then
    let vars := dictSet vars "camera_make"
      (dictGetStrD r.metadata "camera_make" "Unknown")
    dictSet vars "camera_model"
      (dictGetStrD r.metadata "camera_model" "Unknown")
  else vars

structure OrgStats where
  processed : Nat
  errors : Nat
  skipped : Nat
deriving DecidableEq

/-- Running state of `MediaHandler.organize_files`: the filesystem, the
records as mutated so far, the destinations printed so far (the
`... -> destination` lines, emitted before any filesystem operation),
the per-record outcome, and the statistics. -/
structure OrgState where
  fs : FS
  records : List MediaFile
  printed : List String
  log : List (Except String String)
  stats : OrgStats

/-- The record as it stands when the folder template is rendered: metadata
is extracted first when still absent (`if not media_file.metadata`). -/
def orgRecordMid (r : MediaFile) (fs : FS) : MediaFile :=
  if r.metadata.isEmpty then r.extract_metadata fs else r

/-- A per-record failure caught at the loop boundary of `organize_files`
before the destination was printed: the record (with any mutations made so
far) is kept, the error is logged and counted. -/
def orgStepFail (st : OrgState) (r1 : MediaFile) (e : String) : OrgState :=
  { st with
    records := st.records ++ [r1]
    log := st.log ++ [Except.error e]
    stats := { st.stats with errors := st.stats.errors + 1 } }

/-- The tail of one `organize_files` iteration, from the `print` of the
computed destination onwards: report the mapping, then (unless `dry_run`)
perform the operation — `move` updates the record path, `copy` leaves it,
any other operation string raises and is caught as a per-record error. -/
def orgStepOp (op : String) (dry : Bool) (st : OrgState) (r1 : MediaFile)
    (dest : PPath) : OrgState :=
  if dry then
    { st with
      records := st.records ++ [r1]
      printed := st.printed ++ [dest.str]
      log := st.log ++ [Except.ok dest.str]
      stats := { st.stats with processed := st.stats.processed + 1 } }
  else if op = "move" then
    match fsMove st.fs r1.path dest with
    | (fs1, .ok newPath) =>
      { st with
        fs := fs1
        records := st.records ++ [{ r1 with path := newPath }]
        printed := st.printed ++ [dest.str]
        log := st.log ++ [Except.ok dest.str]
        stats := { st.stats with processed := st.stats.processed + 1 } }
    | (fs1, .error e) =>
      { st with
        fs := fs1
        records := st.records ++ [r1]
        printed := st.printed ++ [dest.str]
        log := st.log ++ [Except.error e]
        stats := { st.stats with errors := st.stats.errors + 1 } }
  else if op = "copy" then
    match fsCopy st.fs r1.path dest with
    | (fs1, .ok _) =>
      { st with
        fs := fs1
        records := st.records ++ [r1]
        printed := st.printed ++ [dest.str]
        log := st.log ++ [Except.ok dest.str]
        stats := { st.stats with processed := st.stats.processed + 1 } }
    | (fs1, .error e) =>
      { st with
        fs := fs1
        records := st.records ++ [r1]
        printed := st.printed ++ [dest.str]
        log := st.log ++ [Except.error e]
        stats := { st.stats with errors := st.stats.errors + 1 } }
  else
    { st with
      records := st.records ++ [r1]
      printed := st.printed ++ [dest.str]
      log := st.log ++ [Except.error ("Invalid operation: " ++ op)]
      stats := { st.stats with errors := st.stats.errors + 1 } }

/-- One iteration of the `for media_file in self.media_files` loop of
`organize_files`: render the filename, extract metadata if absent, render
the folder path, then print the destination and perform the operation
(`orgStepOp`).  Failures are caught at the loop boundary and counted;
mutations made before the failure (metadata extraction, `mkdir`) persist. -/
def orgStep (outDir ftpl fstruct op : String) (dry : Bool)
    (st : OrgState) (r : MediaFile) : OrgState :=
  match r.generate_output_filename ftpl with
  | .error e => orgStepFail st r e
  | .ok newFilename =>
    match pyFormat (folderTemplateVars (orgRecordMid r st.fs)) fstruct with
    | .error e => orgStepFail st (orgRecordMid r st.fs) e
    | .ok folderPath =>
      orgStepOp op dry st (orgRecordMid r st.fs)
        ⟨outDir ++ "/" ++ (⟨folderPath⟩ : String), newFilename⟩

/-- `MediaHandler.organize_files` over an explicit record list.  The Python
method catches every per-record exception, so the embedding is a total
function: it always returns final statistics and never propagates a
per-record failure. -/
def organize_files (fs : FS) (recs : List MediaFile)
    (outDir ftpl fstruct op : String) (dry : Bool) : OrgState :=
  recs.foldl (orgStep outDir ftpl fstruct op dry) ⟨fs, [], [], [], ⟨0, 0, 0⟩⟩

/-! Auxiliary definitions used by the verification statements. -/

def isOkB {ε α : Type} : Except ε α → Bool
  | .ok _ => true
  | .error _ => false

/-- The destination line one loop iteration of `organize_files` prints for
record `r` against filesystem `fs` (empty when a failure occurs before the
destination is computed).  This mirrors the prefix of `orgStep` up to the
`print` call, which precedes any filesystem operation. -/
def stepPrinted (fs : FS) (outDir ftpl fstruct : String) (r : MediaFile) :
    List String :=
  match r.generate_output_filename ftpl with
  | .error _ => []
  | .ok newFilename =>
    match pyFormat (folderTemplateVars (orgRecordMid r fs)) fstruct with
    | .error _ => []
    | .ok folderPath =>
      [(⟨outDir ++ "/" ++ (⟨folderPath⟩ : String), newFilename⟩ : PPath).str]

/-- Whether both template renderings for record `r` succeed (filename
template on `r`, folder template on the record after the conditional
metadata extraction against `fs`). -/
def renderOk (fs : FS) (r : MediaFile) (ftpl fstruct : String) : Bool :=
  isOkB (r.generate_output_filename ftpl) &&
    isOkB (pyFormat (folderTemplateVars (orgRecordMid r fs)) fstruct)

/-- The counter value at which the conflict loop of `move`/`copy` stops for
an occupied destination. -/
def resolvedCounter (fs : FS) (dest : PPath) : Nat :=
  conflictSearch fs dest (fs.files.length + fs.dirs.length + 1) 1

/-! Concrete fixtures used by the closed parts of the statements. -/

def fdA : FileData := ⟨"CONTENT", ⟨2024, 1, 1, 0, 0, 0⟩, ⟨2024, 1, 1, 0, 0, 0⟩, none, none⟩

def fdB : FileData := ⟨"OTHER", ⟨2024, 1, 2, 0, 0, 0⟩, ⟨2024, 1, 2, 0, 0, 0⟩, none, none⟩

/-- A directory `d` holding two byte-identical jpeg files. -/
def fsTwin : FS := ⟨[("d/a.jpg", fdA), ("d/b.jpg", fdA)], ["d"]⟩

/-- A catalog surviving from an earlier successful scan. -/
def handlerPrior : Handler := ⟨[⟨"x.jpg", "image", [], []⟩], [], emptyScanStats⟩

/-- Two distinct source files that both render to the same output name. -/
def fsPair : FS := ⟨[("s/a.jpg", fdA), ("s/b.jpg", fdB)], ["s"]⟩

def recA : MediaFile := ⟨"s/a.jpg", "image", [], []⟩

def recB : MediaFile := ⟨"s/b.jpg", "image", [], []⟩

/-- The image record of the rendering example: `date_taken = 2024-03-05`,
path `IMG_01.jpg`. -/
def recC3 : MediaFile :=
  ⟨"photos/IMG_01.jpg", "image",
   [("date_taken", .d ⟨2024, 3, 5, 14, 30, 22⟩)], []⟩

/-- An existing regular `.cr2` file. -/
def fsRaw : FS := ⟨[("d/photo.cr2", fdA)], ["d"]⟩

/-- A record that was successfully extracted once (non-empty metadata)
whose underlying file has since disappeared. -/
def recStale : MediaFile :=
  ⟨"gone/x.jpg", "image",
   [("filename", .s "x.jpg"), ("file_hash", .s "h:CONTENT")], []⟩

def fsEmpty : FS := ⟨[], []⟩

/-- A freshly constructed record (empty metadata) whose file is missing. -/
def recFresh : MediaFile := ⟨"gone/x.jpg", "image", [], []⟩

/-- The raw camera extensions named by the classification claim. -/
def rawExts : List String :=
  [".cr2", ".nef", ".arw", ".dng", ".orf", ".rw2", ".pef", ".srw"]

/-- A directory holding one existing regular file per raw extension. -/
def fsRawAll : FS := ⟨rawExts.map (fun e => ("d/x" ++ e, fdA)), ["d"]⟩

/-- A destination directory where `x.jpg` and `x_1.jpg` are already taken. -/
def fsConf : FS := ⟨[("out/x.jpg", fdA), ("out/x_1.jpg", fdB)], ["out"]⟩

def destConf : PPath := ⟨"out", "x.jpg"⟩

/-- A filesystem where the destination name is occupied by a *directory*:
`Path.exists()` is true for it even though no regular file has that path. -/
def fsDirOcc : FS := ⟨[], ["out", "out/x.jpg"]⟩

/-- No two consecutive whitespace characters. -/
def noDoubleSpace : List Char → Bool
  | a :: b :: rest => !(isPySpace a && isPySpace b) && noDoubleSpace (b :: rest)
  | _ => true

def headNotSpace (l : List Char) : Bool :=
  match l.head? with
  | some c => !(isPySpace c)
  | none => true

def lastNotSpace (l : List Char) : Bool :=
  match l.getLast? with
  | some c => !(isPySpace c)
  | none => true

/-- Well-formed token lists as produced by `pySplit`: every token is
non-empty and whitespace-free. -/
def goodToks (ts : List (List Char)) : Prop :=
  ∀ t ∈ ts, t ≠ [] ∧ ∀ c ∈ t, isPySpace c = false

/-- Counting invariant of the organize fold. -/
def CountInv (st : OrgState) : Prop :=
  st.stats.processed = st.log.countP isOkB ∧
  st.stats.errors = st.log.countP (fun o => !(isOkB o)) ∧
  st.stats.skipped = 0

/-- The catalog invariant maintained by `_add_media_file`: every truthy
stored hash of a catalogued record is indexed in `_file_hashes`, and no two
catalogued records share a truthy hash. -/
def HashInv (h : Handler) : Prop :=
  (∀ r ∈ h.media_files, ∀ s, recHashTruthy r = some s →
    (dictGet h.file_hashes s).isSome = true) ∧
  h.media_files.Pairwise
    (fun a b => ¬ ∃ s, recHashTruthy a = some s ∧ recHashTruthy b = some s)

/-!
# Claim verification

Each claim of the specification is settled by one theorem below.
-/

/-- **C2** (code bug evidence).  For every raw camera extension the handler's
classifier (`MediaHandler._detect_file_type`) returns kind `image`, yet
constructing the `MediaFile` with that matching kind fails, because
`MediaFile._detect_file_type` re-detects with the built-in MIME table (which
has no entry for raw formats) and a smaller fallback extension set that
omits every raw format: `__post_init__` runs the detection unconditionally
and the `ValueError: Unsupported file type` aborts construction.  A scan
therefore counts each file the handler itself lists as supported as an
error instead of cataloguing it. -/
theorem classify_raw_construction_gap :
    handlerDetectFileType "d/photo.cr2" = some "image" ∧
    fsRaw.fileExistsB "d/photo.cr2" = true ∧
    MediaFile.create fsRaw "d/photo.cr2" "image" =
      .error "Unsupported file type: .cr2" ∧
    (rawExts.all (fun e =>
      (handlerDetectFileType ("d/x" ++ e) == some "image") &&
        !(isOkB (MediaFile.create fsRawAll ("d/x" ++ e) "image")))) = true := by
  refine ⟨rfl, rfl, rfl, ?_⟩
  decide

/-- **C7** (counterexample).  A scan invocation that fails its directory
precondition raises before the catalog is cleared: with a record surviving
from a prior scan, scanning a non-existent directory reports
`DirectoryNotFound` while the catalog still holds that record —
contradicting the claim that after the failed invocation the catalog holds
no records. -/
theorem scan_failure_retains_state_cex :
    (scan_directory fsTwin handlerPrior "nope").err = some .directoryNotFound ∧
    (scan_directory fsTwin handlerPrior "nope").handler.media_files.length = 1 := by
  exact ⟨rfl, rfl⟩

/-- **C7** (amended).  `scan_directory` fails with `DirectoryNotFound` when
the path does not exist and with `NotADirectory` when it exists but is not
a directory; in either case it fails before mutating anything, so the
catalog (records, hash index, statistics) and the filesystem are exactly
what they were before the call. -/
theorem scan_precondition_failure_no_mutation (fs : FS) (h : Handler) (dir : String) :
    (fs.pathExistsB dir = false →
      scan_directory fs h dir = ⟨h, fs, some .directoryNotFound⟩) ∧
    (fs.pathExistsB dir = true → fs.dirExistsB dir = false →
      scan_directory fs h dir = ⟨h, fs, some .notADirectory⟩) := by
  constructor
  · intro hne
    simp [scan_directory, hne]
  · intro hex hnd
    simp [scan_directory, hex, hnd]

theorem scan_precondition_failure_no_mutation_witness :
    scan_directory fsTwin handlerPrior "nope" =
      ⟨handlerPrior, fsTwin, some .directoryNotFound⟩ :=
  (scan_precondition_failure_no_mutation fsTwin handlerPrior "nope").1 (by decide)

/-- **C8** (counterexample).  The degraded `{filename, error}` map is only
installed when the metadata dictionary is still empty: for a record whose
metadata survives from an earlier successful extraction, a failing
re-extraction (file gone) returns normally but the resulting map has no
`error` key — contradicting the claim that every failing extraction leaves
at least `{filename, error}`. -/
theorem extract_metadata_error_key_cex :
    fsEmpty.lookupFile recStale.path = none ∧
    dictGet (recStale.extract_metadata fsEmpty).metadata "error" = none := by
  exact ⟨rfl, rfl⟩

/-- **C8** (amended).  Metadata extraction is total (never raises): when the
underlying file access fails, a record whose metadata was still empty ends
with exactly the minimal `{filename, error}` map, and a record with
non-empty metadata is returned unchanged. -/
theorem extract_metadata_total_degraded (fs : FS) (r : MediaFile)
    (hmiss : fs.lookupFile r.path = none) :
    (r.metadata = [] →
      (r.extract_metadata fs).metadata =
        [("filename", .s (pathName r.path)),
         ("error", .s ("stat failed: " ++ r.path))]) ∧
    (r.metadata ≠ [] → r.extract_metadata fs = r) := by
  constructor
  · intro hempty
    simp [MediaFile.extract_metadata, hmiss, hempty]
  · intro hne
    have : r.metadata.isEmpty = false := by
      cases hm : r.metadata with
      | nil => exact absurd hm hne
      | cons a t => simp
    simp [MediaFile.extract_metadata, hmiss, this]

theorem extract_metadata_total_degraded_witness :
    fsEmpty.lookupFile recFresh.path = none ∧
    (recFresh.extract_metadata fsEmpty).metadata =
      [("filename", .s (pathName recFresh.path)),
       ("error", .s ("stat failed: " ++ recFresh.path))] :=
  ⟨rfl, (extract_metadata_total_degraded fsEmpty recFresh rfl).1 rfl⟩

/-! Lemmas about the sanitization pipeline `' '.join(s.split())`. -/

theorem pySplitAux_good (l : List Char) :
    ∀ acc, (∀ c ∈ acc, isPySpace c = false) → goodToks (pySplitAux l acc) := by
  induction l with
  | nil =>
    intro acc hacc t ht
    cases acc with
    | nil => simp [pySplitAux] at ht
    | cons a as =>
      simp [pySplitAux] at ht
      subst ht
      refine ⟨by simp, ?_⟩
      intro c hc
      exact hacc c (by simp at hc ⊢; tauto)
  | cons c rest ih =>
    intro acc hacc t ht
    by_cases hc : isPySpace c = true
    · cases acc with
      | nil =>
        simp [pySplitAux, hc] at ht
        exact ih [] (by simp) t ht
      | cons a as =>
        simp [pySplitAux, hc] at ht
        rcases ht with ht | ht
        · subst ht
          refine ⟨by simp, ?_⟩
          intro x hx
          exact hacc x (by simp at hx ⊢; tauto)
        · exact ih [] (by simp) t ht
    · simp [pySplitAux, hc] at ht
      refine ih (c :: acc) ?_ t ht
      intro x hx
      rcases List.mem_cons.mp hx with rfl | hx
      · simpa using hc
      · exact hacc x hx

theorem pySplitAux_subset (l : List Char) :
    ∀ acc t, t ∈ pySplitAux l acc → ∀ c ∈ t, c ∈ l ∨ c ∈ acc := by
  induction l with
  | nil =>
    intro acc t ht c hc
    cases acc with
    | nil => simp [pySplitAux] at ht
    | cons a as =>
      simp [pySplitAux] at ht
      subst ht
      refine Or.inr ?_
      simp at hc ⊢
      tauto
  | cons x rest ih =>
    intro acc t ht c hc
    by_cases hx : isPySpace x = true
    · cases acc with
      | nil =>
        simp [pySplitAux, hx] at ht
        rcases ih [] t ht c hc with h | h
        · exact Or.inl (List.mem_cons_of_mem x h)
        · simp at h
      | cons a as =>
        simp [pySplitAux, hx] at ht
        rcases ht with ht | ht
        · subst ht
          refine Or.inr ?_
          simp at hc ⊢
          tauto
        · rcases ih [] t ht c hc with h | h
          · exact Or.inl (List.mem_cons_of_mem x h)
          · simp at h
    · simp [pySplitAux, hx] at ht
      rcases ih (x :: acc) t ht c hc with h | h
      · exact Or.inl (List.mem_cons_of_mem x h)
      · rcases List.mem_cons.mp h with rfl | h
        · exact Or.inl (List.mem_cons_self c rest)
        · exact Or.inr h

theorem noDoubleSpace_of_nospace (l : List Char)
    (h : ∀ c ∈ l, isPySpace c = false) : noDoubleSpace l = true := by
  induction l with
  | nil => rfl
  | cons a t ih =>
    cases t with
    | nil => rfl
    | cons b t2 =>
      have ha : isPySpace a = false := h a (by simp)
      have hrest : noDoubleSpace (b :: t2) = true :=
        ih (fun c hc => h c (List.mem_cons_of_mem a hc))
      simp [noDoubleSpace, ha, hrest]

theorem noDoubleSpace_append (t x : List Char)
    (ht : ∀ c ∈ t, isPySpace c = false) (hx : noDoubleSpace x = true) :
    noDoubleSpace (t ++ x) = true := by
  induction t with
  | nil => simpa using hx
  | cons a t2 ih =>
    have ha : isPySpace a = false := ht a (by simp)
    have hrest : noDoubleSpace (t2 ++ x) = true :=
      ih (fun c hc => ht c (List.mem_cons_of_mem a hc))
    rw [List.cons_append]
    cases h2 : t2 ++ x with
    | nil => rfl
    | cons b t3 =>
      rw [h2] at hrest
      simp [noDoubleSpace, ha, hrest]

theorem joinSpaces_cons_cons (t t2 : List Char) (ts : List (List Char)) :
    joinSpaces (t :: t2 :: ts) = t ++ ' ' :: joinSpaces (t2 :: ts) := rfl

theorem joinSpaces_head (ts : List (List Char)) (h : goodToks ts) :
    ∀ c, (joinSpaces ts).head? = some c → isPySpace c = false := by
  cases ts with
  | nil => intro c hc; simp [joinSpaces] at hc
  | cons t rest =>
    have ht := h t (by simp)
    cases rest with
    | nil =>
      intro c hc
      exact ht.2 c (List.mem_of_mem_head? (Option.mem_def.mpr hc))
    | cons t2 rest2 =>
      intro c hc
      rw [joinSpaces_cons_cons, List.head?_append_of_ne_nil t ht.1] at hc
      exact ht.2 c (List.mem_of_mem_head? (Option.mem_def.mpr hc))

theorem joinSpaces_last (ts : List (List Char)) (h : goodToks ts) :
    ∀ c, (joinSpaces ts).getLast? = some c → isPySpace c = false := by
  induction ts with
  | nil => intro c hc; simp [joinSpaces] at hc
  | cons t rest ih =>
    cases rest with
    | nil =>
      intro c hc
      exact (h t (by simp)).2 c (List.mem_of_mem_getLast? (Option.mem_def.mpr hc))
    | cons t2 rest2 =>
      intro c hc
      rw [joinSpaces_cons_cons, List.getLast?_append_cons] at hc
      have hgood2 : goodToks (t2 :: rest2) := fun u hu => h u (List.mem_cons_of_mem t hu)
      have ht2 := hgood2 t2 (by simp)
      cases hj : joinSpaces (t2 :: rest2) with
      | nil =>
        exfalso
        cases rest2 with
        | nil => exact ht2.1 (by simpa [joinSpaces] using hj)
        | cons t3 rest3 =>
          rw [joinSpaces_cons_cons] at hj
          rcases List.append_eq_nil.mp hj with ⟨_, habs⟩
          simp at habs
      | cons b bs =>
        rw [hj] at hc
        have : (' ' :: b :: bs).getLast? = (b :: bs).getLast? := by
          simp [List.getLast?_cons_cons]
        rw [this, ← hj] at hc
        exact ih hgood2 c hc

theorem joinSpaces_noDoubleSpace (ts : List (List Char)) (h : goodToks ts) :
    noDoubleSpace (joinSpaces ts) = true := by
  induction ts with
  | nil => rfl
  | cons t rest ih =>
    have ht := h t (by simp)
    cases rest with
    | nil => exact noDoubleSpace_of_nospace t ht.2
    | cons t2 rest2 =>
      have hgood2 : goodToks (t2 :: rest2) := fun u hu => h u (List.mem_cons_of_mem t hu)
      rw [joinSpaces_cons_cons]
      refine noDoubleSpace_append t _ ht.2 ?_
      cases hj : joinSpaces (t2 :: rest2) with
      | nil => rfl
      | cons b bs =>
        have hb : isPySpace b = false :=
          joinSpaces_head (t2 :: rest2) hgood2 b (by rw [hj]; rfl)
        have hrest : noDoubleSpace (b :: bs) = true := by
          rw [← hj]; exact ih hgood2
        simp [noDoubleSpace, hb, hrest]

theorem joinSpaces_mem (c : Char) :
    ∀ ts : List (List Char), c ∈ joinSpaces ts → c = ' ' ∨ ∃ t ∈ ts, c ∈ t := by
  intro ts
  induction ts with
  | nil => intro hc; simp [joinSpaces] at hc
  | cons t rest ih =>
    intro hc
    cases rest with
    | nil => exact Or.inr ⟨t, by simp, hc⟩
    | cons t2 rest2 =>
      rw [joinSpaces_cons_cons] at hc
      rcases List.mem_append.mp hc with h | h
      · exact Or.inr ⟨t, by simp, h⟩
      · rcases List.mem_cons.mp h with rfl | h
        · exact Or.inl rfl
        · rcases ih h with h | ⟨u, hu, hcu⟩
          · exact Or.inl h
          · exact Or.inr ⟨u, List.mem_cons_of_mem t hu, hcu⟩

theorem collapseSpaces_goodToks (l : List Char) : goodToks (pySplit l) :=
  pySplitAux_good l [] (by simp)

theorem collapseSpaces_mem (l : List Char) (c : Char)
    (hc : c ∈ collapseSpaces l) : c = ' ' ∨ c ∈ l := by
  rcases joinSpaces_mem c (pySplit l) hc with h | ⟨t, ht, hct⟩
  · exact Or.inl h
  · rcases pySplitAux_subset l [] t ht c hct with h | h
    · exact Or.inr h
    · simp at h

theorem collapseSpaces_noDoubleSpace (l : List Char) :
    noDoubleSpace (collapseSpaces l) = true :=
  joinSpaces_noDoubleSpace (pySplit l) (collapseSpaces_goodToks l)

theorem collapseSpaces_headNotSpace (l : List Char) :
    headNotSpace (collapseSpaces l) = true := by
  unfold headNotSpace
  cases hh : (collapseSpaces l).head? with
  | none => rfl
  | some c =>
    have := joinSpaces_head (pySplit l) (collapseSpaces_goodToks l) c hh
    simp [this]

theorem collapseSpaces_lastNotSpace (l : List Char) :
    lastNotSpace (collapseSpaces l) = true := by
  unfold lastNotSpace
  cases hh : (collapseSpaces l).getLast? with
  | none => rfl
  | some c =>
    have := joinSpaces_last (pySplit l) (collapseSpaces_goodToks l) c hh
    simp [this]

/-- A successful rendering yields exactly the sanitized collapse of the
substituted template. -/
theorem generate_output_filename_eq (r : MediaFile) (tpl out : String)
    (h : r.generate_output_filename tpl = .ok out) :
    ∃ cs, pyFormat (MediaFile.templateVars r) tpl = .ok cs ∧
      out.data = collapseSpaces (cs.filter allowedFilenameChar) := by
  unfold MediaFile.generate_output_filename at h
  cases hf : pyFormat (MediaFile.templateVars r) tpl with
  | error e => rw [hf] at h; exact absurd h (by simp)
  | ok cs =>
    rw [hf] at h
    refine ⟨cs, rfl, ?_⟩
    have : (⟨collapseSpaces (cs.filter allowedFilenameChar)⟩ : String) = out := by
      simpa using h
    rw [← this]

/-- **C3**.  `generate_output_filename` first substitutes every placeholder
from the resolved variable set, then sanitizes: every character of a
successful rendering lies in the allowed set
(alphanumeric, `.`, `_`, `-`, `(`, `)`, space) and whitespace runs are
collapsed (no two consecutive whitespace characters remain); on the record
with `date_taken = 2024-03-05` and path `IMG_01.jpg`, the template
`"{year}-{month}-{day}_{original_name}{extension}"` renders to exactly
`"2024-03-05_IMG_01.jpg"`. -/
theorem generate_output_filename_spec :
    (recC3.generate_output_filename "{year}-{month}-{day}_{original_name}{extension}"
      = .ok "2024-03-05_IMG_01.jpg") ∧
    ∀ (r : MediaFile) (tpl out : String),
      r.generate_output_filename tpl = .ok out →
      out.data.all allowedFilenameChar = true ∧ noDoubleSpace out.data = true := by
  refine ⟨rfl, ?_⟩
  intro r tpl out h
  obtain ⟨cs, _, hdata⟩ := generate_output_filename_eq r tpl out h
  constructor
  · rw [List.all_eq_true]
    intro c hcmem
    rw [hdata] at hcmem
    rcases collapseSpaces_mem _ c hcmem with rfl | hcf
    · rfl
    · exact (List.mem_filter.mp hcf).2
  · rw [hdata]
    exact collapseSpaces_noDoubleSpace _

theorem generate_output_filename_spec_witness :
    recC3.generate_output_filename "{original_name}   (v2){extension}"
      = .ok "IMG_01 (v2).jpg" ∧
    "IMG_01 (v2).jpg".data.all allowedFilenameChar = true ∧
    noDoubleSpace "IMG_01 (v2).jpg".data = true :=
  ⟨rfl, generate_output_filename_spec.2 recC3 "{original_name}   (v2){extension}"
    "IMG_01 (v2).jpg" rfl⟩

/-- **C10**.  The sanitization phase also strips leading and trailing
whitespace: a successfully rendered filename never begins or ends with a
whitespace character. -/
theorem rendered_filename_no_edge_whitespace (r : MediaFile) (tpl out : String)
    (h : r.generate_output_filename tpl = .ok out) :
    headNotSpace out.data = true ∧ lastNotSpace out.data = true := by
  obtain ⟨cs, _, hdata⟩ := generate_output_filename_eq r tpl out h
  rw [hdata]
  exact ⟨collapseSpaces_headNotSpace _, collapseSpaces_lastNotSpace _⟩

theorem rendered_filename_no_edge_whitespace_witness :
    recC3.generate_output_filename "  {original_name}  " = .ok "IMG_01" ∧
    headNotSpace "IMG_01".data = true ∧ lastNotSpace "IMG_01".data = true :=
  ⟨rfl, rendered_filename_no_edge_whitespace recC3 "  {original_name}  " "IMG_01" rfl⟩

/-! Lemmas about the per-record organize loop. -/

theorem countP_partition {α : Type} (p : α → Bool) (l : List α) :
    l.countP p + l.countP (fun a => !(p a)) = l.length := by
  induction l with
  | nil => rfl
  | cons a t ih =>
    cases h : p a <;> simp [List.countP_cons, h] <;> omega

/-- Every organize iteration appends exactly one outcome to the log and bumps
exactly one of `processed`/`errors` according to that outcome. -/
theorem orgStepOp_outcome (op : String) (dry : Bool) (st : OrgState)
    (r1 : MediaFile) (dest : PPath) :
    ∃ o : Except String String,
      (orgStepOp op dry st r1 dest).log = st.log ++ [o] ∧
      (orgStepOp op dry st r1 dest).stats.processed =
        st.stats.processed + (if isOkB o then 1 else 0) ∧
      (orgStepOp op dry st r1 dest).stats.errors =
        st.stats.errors + (if isOkB o then 0 else 1) ∧
      (orgStepOp op dry st r1 dest).stats.skipped = st.stats.skipped ∧
      (orgStepOp op dry st r1 dest).printed = st.printed ++ [dest.str] := by
  unfold orgStepOp
  by_cases hdry : dry = true
  · rw [if_pos hdry]
    exact ⟨.ok dest.str, rfl, rfl, rfl, rfl, rfl⟩
  · rw [if_neg hdry]
    by_cases hmv : op = "move"
    · rw [if_pos hmv]
      rcases hm : fsMove st.fs r1.path dest with ⟨fs1, res⟩
      cases res with
      | ok p => exact ⟨.ok dest.str, rfl, rfl, rfl, rfl, rfl⟩
      | error e => exact ⟨.error e, rfl, rfl, rfl, rfl, rfl⟩
    · rw [if_neg hmv]
      by_cases hcp : op = "copy"
      · rw [if_pos hcp]
        rcases hm : fsCopy st.fs r1.path dest with ⟨fs1, res⟩
        cases res with
        | ok p => exact ⟨.ok dest.str, rfl, rfl, rfl, rfl, rfl⟩
        | error e => exact ⟨.error e, rfl, rfl, rfl, rfl, rfl⟩
      · rw [if_neg hcp]
        exact ⟨.error ("Invalid operation: " ++ op), rfl, rfl, rfl, rfl, rfl⟩

theorem orgStep_outcome (outDir ftpl fstruct op : String) (dry : Bool)
    (st : OrgState) (r : MediaFile) :
    ∃ o : Except String String,
      (orgStep outDir ftpl fstruct op dry st r).log = st.log ++ [o] ∧
      (orgStep outDir ftpl fstruct op dry st r).stats.processed =
        st.stats.processed + (if isOkB o then 1 else 0) ∧
      (orgStep outDir ftpl fstruct op dry st r).stats.errors =
        st.stats.errors + (if isOkB o then 0 else 1) ∧
      (orgStep outDir ftpl fstruct op dry st r).stats.skipped =
        st.stats.skipped := by
  unfold orgStep
  cases hg : r.generate_output_filename ftpl with
  | error e => exact ⟨.error e, rfl, rfl, rfl, rfl⟩
  | ok newFilename =>
    cases hf : pyFormat (folderTemplateVars (orgRecordMid r st.fs)) fstruct with
    | error e => exact ⟨.error e, rfl, rfl, rfl, rfl⟩
    | ok folderPath =>
      obtain ⟨o, h1, h2, h3, h4, _⟩ := orgStepOp_outcome op dry st
        (orgRecordMid r st.fs) ⟨outDir ++ "/" ++ (⟨folderPath⟩ : String), newFilename⟩
      exact ⟨o, h1, h2, h3, h4⟩

theorem orgStep_countInv (outDir ftpl fstruct op : String) (dry : Bool)
    (st : OrgState) (r : MediaFile) (h : CountInv st) :
    CountInv (orgStep outDir ftpl fstruct op dry st r) := by
  obtain ⟨o, hlog, hp, he, hs⟩ := orgStep_outcome outDir ftpl fstruct op dry st r
  obtain ⟨h1, h2, h3⟩ := h
  refine ⟨?_, ?_, ?_⟩
  · rw [hp, hlog, List.countP_append, h1]
    cases o <;> simp [isOkB]
  · rw [he, hlog, List.countP_append, h2]
    cases o <;> simp [isOkB]
  · rw [hs, h3]

theorem organize_fold_countInv (outDir ftpl fstruct op : String) (dry : Bool) :
    ∀ (recs : List MediaFile) (st : OrgState), CountInv st →
      CountInv (recs.foldl (orgStep outDir ftpl fstruct op dry) st) := by
  intro recs
  induction recs with
  | nil => intro st h; exact h
  | cons r rest ih =>
    intro st h
    exact ih _ (orgStep_countInv outDir ftpl fstruct op dry st r h)

theorem organize_fold_length (outDir ftpl fstruct op : String) (dry : Bool) :
    ∀ (recs : List MediaFile) (st : OrgState),
      (recs.foldl (orgStep outDir ftpl fstruct op dry) st).log.length =
        st.log.length + recs.length := by
  intro recs
  induction recs with
  | nil => intro st; simp
  | cons r rest ih =>
    intro st
    obtain ⟨o, hlog, _, _, _⟩ := orgStep_outcome outDir ftpl fstruct op dry st r
    rw [List.foldl_cons, ih, hlog]
    simp
    omega

/-- **C5**.  `organize_files` is a total function (every per-record failure
is caught at the loop boundary, so the Python method never raises); over
`N` records it logs one outcome per record and returns
`processed = N - K`, `errors = K` where `K` is the number of records whose
processing failed (template rendering or filesystem errors), the remaining
records all being processed. -/
theorem organize_counts_partition (fs : FS) (recs : List MediaFile)
    (outDir ftpl fstruct op : String) (dry : Bool) :
    (organize_files fs recs outDir ftpl fstruct op dry).log.length = recs.length ∧
    (organize_files fs recs outDir ftpl fstruct op dry).stats.processed =
      recs.length -
        (organize_files fs recs outDir ftpl fstruct op dry).log.countP
          (fun o => !(isOkB o)) ∧
    (organize_files fs recs outDir ftpl fstruct op dry).stats.errors =
      (organize_files fs recs outDir ftpl fstruct op dry).log.countP
        (fun o => !(isOkB o)) ∧
    (organize_files fs recs outDir ftpl fstruct op dry).stats.processed +
      (organize_files fs recs outDir ftpl fstruct op dry).stats.errors =
      recs.length := by
  have hlen := organize_fold_length outDir ftpl fstruct op dry recs
    ⟨fs, [], [], [], ⟨0, 0, 0⟩⟩
  have hinv := organize_fold_countInv outDir ftpl fstruct op dry recs
    ⟨fs, [], [], [], ⟨0, 0, 0⟩⟩ ⟨rfl, rfl, rfl⟩
  obtain ⟨h1, h2, _⟩ := hinv
  simp only [organize_files] at *
  have hsum : (recs.foldl (orgStep outDir ftpl fstruct op dry)
      ⟨fs, [], [], [], ⟨0, 0, 0⟩⟩).log.countP isOkB +
      (recs.foldl (orgStep outDir ftpl fstruct op dry)
        ⟨fs, [], [], [], ⟨0, 0, 0⟩⟩).log.countP (fun o => !(isOkB o)) =
      recs.length := by
    rw [countP_partition, hlen]
    simp
  refine ⟨by simpa using hlen, ?_, h2, ?_⟩
  · omega
  · omega

/-- A dry-run iteration on a record whose renderings succeed is counted as
processed and touches neither the error counter nor the filesystem. -/
theorem orgStep_dry_ok (outDir ftpl fstruct op : String) (st : OrgState)
    (r : MediaFile) (hok : renderOk st.fs r ftpl fstruct = true) :
    (orgStep outDir ftpl fstruct op true st r).stats.processed =
      st.stats.processed + 1 ∧
    (orgStep outDir ftpl fstruct op true st r).stats.errors = st.stats.errors ∧
    (orgStep outDir ftpl fstruct op true st r).stats.skipped = st.stats.skipped ∧
    (orgStep outDir ftpl fstruct op true st r).fs = st.fs := by
  unfold renderOk at hok
  rw [Bool.and_eq_true] at hok
  obtain ⟨h1, h2⟩ := hok
  unfold orgStep
  cases hg : r.generate_output_filename ftpl with
  | error e => rw [hg] at h1; simp [isOkB] at h1
  | ok nf =>
    cases hf : pyFormat (folderTemplateVars (orgRecordMid r st.fs)) fstruct with
    | error e => rw [hf] at h2; simp [isOkB] at h2
    | ok fp => exact ⟨rfl, rfl, rfl, rfl⟩

/-- A non-dry iteration with an operation string that is neither `move` nor
`copy` reaches the `raise ValueError` after printing the destination: the
record is counted as an error and the filesystem is untouched. -/
theorem orgStep_invalid_wet (outDir ftpl fstruct op : String)
    (hop1 : op ≠ "move") (hop2 : op ≠ "copy") (st : OrgState) (r : MediaFile)
    (hok : renderOk st.fs r ftpl fstruct = true) :
    (orgStep outDir ftpl fstruct op false st r).stats.processed =
      st.stats.processed ∧
    (orgStep outDir ftpl fstruct op false st r).stats.errors =
      st.stats.errors + 1 ∧
    (orgStep outDir ftpl fstruct op false st r).stats.skipped = st.stats.skipped ∧
    (orgStep outDir ftpl fstruct op false st r).fs = st.fs := by
  unfold renderOk at hok
  rw [Bool.and_eq_true] at hok
  obtain ⟨h1, h2⟩ := hok
  unfold orgStep
  cases hg : r.generate_output_filename ftpl with
  | error e => rw [hg] at h1; simp [isOkB] at h1
  | ok nf =>
    cases hf : pyFormat (folderTemplateVars (orgRecordMid r st.fs)) fstruct with
    | error e => rw [hf] at h2; simp [isOkB] at h2
    | ok fp =>
      refine ⟨?_, ?_, ?_, ?_⟩ <;> simp [orgStepOp, hop1, hop2]

theorem org_dry_fold (outDir ftpl fstruct op : String) (fs0 : FS) :
    ∀ (recs : List MediaFile) (st : OrgState), st.fs = fs0 →
      (∀ r ∈ recs, renderOk fs0 r ftpl fstruct = true) →
      (recs.foldl (orgStep outDir ftpl fstruct op true) st).stats.processed =
        st.stats.processed + recs.length ∧
      (recs.foldl (orgStep outDir ftpl fstruct op true) st).stats.errors =
        st.stats.errors ∧
      (recs.foldl (orgStep outDir ftpl fstruct op true) st).fs = fs0 := by
  intro recs
  induction recs with
  | nil => intro st hfs _; exact ⟨rfl, rfl, hfs⟩
  | cons r rest ih =>
    intro st hfs hok
    obtain ⟨hp, he, hs, hf⟩ := orgStep_dry_ok outDir ftpl fstruct op st r
      (by rw [hfs]; exact hok r (by simp))
    rw [List.foldl_cons]
    obtain ⟨hp2, he2, hf2⟩ := ih (orgStep outDir ftpl fstruct op true st r)
      (by rw [hf, hfs]) (fun q hq => hok q (List.mem_cons_of_mem r hq))
    refine ⟨?_, ?_, hf2⟩
    · rw [hp2, hp]
      simp
      omega
    · rw [he2, he]

theorem org_wet_invalid_fold (outDir ftpl fstruct op : String)
    (hop1 : op ≠ "move") (hop2 : op ≠ "copy") (fs0 : FS) :
    ∀ (recs : List MediaFile) (st : OrgState), st.fs = fs0 →
      (∀ r ∈ recs, renderOk fs0 r ftpl fstruct = true) →
      (recs.foldl (orgStep outDir ftpl fstruct op false) st).stats.processed =
        st.stats.processed ∧
      (recs.foldl (orgStep outDir ftpl fstruct op false) st).stats.errors =
        st.stats.errors + recs.length ∧
      (recs.foldl (orgStep outDir ftpl fstruct op false) st).fs = fs0 := by
  intro recs
  induction recs with
  | nil => intro st hfs _; exact ⟨rfl, rfl, hfs⟩
  | cons r rest ih =>
    intro st hfs hok
    obtain ⟨hp, he, hs, hf⟩ := orgStep_invalid_wet outDir ftpl fstruct op hop1 hop2
      st r (by rw [hfs]; exact hok r (by simp))
    rw [List.foldl_cons]
    obtain ⟨hp2, he2, hf2⟩ := ih (orgStep outDir ftpl fstruct op false st r)
      (by rw [hf, hfs]) (fun q hq => hok q (List.mem_cons_of_mem r hq))
    refine ⟨?_, ?_, hf2⟩
    · rw [hp2, hp]
    · rw [he2, he]
      simp
      omega

/-- **C9**.  For every catalog whose records' templates render successfully
and every operation string that is neither `copy` nor `move`, a dry run
reports every record as processed with zero errors (operation-mode validity
is only checked when `dry_run` is false, after the destination print),
while the same call without `dry_run` counts every record as an error and
processes none. -/
theorem organize_invalid_operation_dry_vs_wet (fs : FS) (recs : List MediaFile)
    (outDir ftpl fstruct op : String) (hop1 : op ≠ "copy") (hop2 : op ≠ "move")
    (hok : ∀ r ∈ recs, renderOk fs r ftpl fstruct = true) :
    (organize_files fs recs outDir ftpl fstruct op true).stats.processed =
      recs.length ∧
    (organize_files fs recs outDir ftpl fstruct op true).stats.errors = 0 ∧
    (organize_files fs recs outDir ftpl fstruct op false).stats.processed = 0 ∧
    (organize_files fs recs outDir ftpl fstruct op false).stats.errors =
      recs.length := by
  obtain ⟨hd1, hd2, _⟩ := org_dry_fold outDir ftpl fstruct op fs recs
    ⟨fs, [], [], [], ⟨0, 0, 0⟩⟩ rfl hok
  obtain ⟨hw1, hw2, _⟩ := org_wet_invalid_fold outDir ftpl fstruct op hop2 hop1 fs
    recs ⟨fs, [], [], [], ⟨0, 0, 0⟩⟩ rfl hok
  refine ⟨?_, ?_, ?_, ?_⟩
  · simpa [organize_files] using hd1
  · simpa [organize_files] using hd2
  · simpa [organize_files] using hw1
  · simpa [organize_files] using hw2

theorem organize_invalid_operation_dry_vs_wet_witness :
    (organize_files fsPair [recA, recB] "out" "x{extension}" "m" "badop"
      true).stats.processed = 2 ∧
    (organize_files fsPair [recA, recB] "out" "x{extension}" "m" "badop"
      true).stats.errors = 0 ∧
    (organize_files fsPair [recA, recB] "out" "x{extension}" "m" "badop"
      false).stats.processed = 0 ∧
    (organize_files fsPair [recA, recB] "out" "x{extension}" "m" "badop"
      false).stats.errors = 2 :=
  organize_invalid_operation_dry_vs_wet fsPair [recA, recB] "out" "x{extension}"
    "m" "badop" (by decide) (by decide) (by decide)

/-! Lemmas about the catalog's duplicate-detection invariant. -/

theorem dictGet_set_self {α : Type} (m : List (String × α)) (k : String) (v : α) :
    dictGet (dictSet m k v) k = some v := by
  induction m with
  | nil => simp [dictSet, dictGet]
  | cons e rest ih =>
    by_cases he : e.1 = k
    · simp [dictSet, he, dictGet]
    · simp [dictSet, he, dictGet, ih]

theorem dictGet_set_ne {α : Type} (m : List (String × α)) (k k' : String) (v : α)
    (h : k' ≠ k) : dictGet (dictSet m k v) k' = dictGet m k' := by
  induction m with
  | nil =>
    simp [dictSet, dictGet]
    exact fun heq => h heq.symm
  | cons e rest ih =>
    by_cases he : e.1 = k
    · subst he
      have hne : e.1 ≠ k' := fun heq => h heq.symm
      simp [dictSet, dictGet, hne]
    · by_cases he2 : e.1 = k' <;> simp [dictSet, he, dictGet, he2, ih, h]

theorem hashShared_symm :
    Symmetric (fun a b : MediaFile =>
      ¬ ∃ s, recHashTruthy a = some s ∧ recHashTruthy b = some s) := by
  intro a b hab ⟨s, h1, h2⟩
  exact hab ⟨s, h2, h1⟩

theorem addMediaFile_inv (fs : FS) (h : Handler) (mf : MediaFile)
    (hinv : HashInv h) : HashInv (addMediaFile fs h mf) := by
  obtain ⟨hidx, hpw⟩ := hinv
  unfold addMediaFile
  dsimp only
  cases hh : recHashTruthy (mf.extract_metadata fs) with
  | none =>
    dsimp only
    constructor
    · intro r hr s hs
      rcases List.mem_append.mp hr with hr | hr
      · exact hidx r hr s hs
      · simp at hr
        subst hr
        rw [hh] at hs
        exact absurd hs (by simp)
    · rw [List.pairwise_append]
      refine ⟨hpw, by simp, ?_⟩
      intro a ha b hb ⟨s, h1, h2⟩
      simp at hb
      subst hb
      rw [hh] at h2
      exact absurd h2 (by simp)
  | some hsh =>
    dsimp only
    by_cases hmem : (dictGet h.file_hashes hsh).isSome = true
    · rw [if_pos hmem]
      exact ⟨hidx, hpw⟩
    · rw [if_neg hmem]
      constructor
      · intro r hr s hs
        rcases List.mem_append.mp hr with hr | hr
        · by_cases hsk : s = hsh
          · subst hsk
            rw [dictGet_set_self]
            rfl
          · rw [dictGet_set_ne _ _ _ _ hsk]
            exact hidx r hr s hs
        · simp at hr
          subst hr
          rw [hh] at hs
          have hse : hsh = s := by injection hs
          subst hse
          rw [dictGet_set_self]
          rfl
      · rw [List.pairwise_append]
        refine ⟨hpw, by simp, ?_⟩
        intro a ha b hb ⟨s, h1, h2⟩
        simp at hb
        subst hb
        rw [hh] at h2
        have hse : hsh = s := by injection h2
        subst hse
        exact hmem (hidx a ha hsh h1)

theorem createMediaFile_fields (fs : FS) (h : Handler) (p : String) :
    (createMediaFile fs h p).1.media_files = h.media_files ∧
    (createMediaFile fs h p).1.file_hashes = h.file_hashes := by
  unfold createMediaFile
  cases handlerDetectFileType p with
  | none => exact ⟨rfl, rfl⟩
  | some t =>
    dsimp only
    cases MediaFile.create fs p t with
    | ok mf => exact ⟨rfl, rfl⟩
    | error e => exact ⟨rfl, rfl⟩

theorem hashInv_of_fields (h1 h2 : Handler)
    (hm : h1.media_files = h2.media_files)
    (hf : h1.file_hashes = h2.file_hashes) (h : HashInv h2) : HashInv h1 := by
  obtain ⟨ha, hb⟩ := h
  exact ⟨by rw [hm, hf]; exact ha, by rw [hm]; exact hb⟩

theorem processFiles_cons (fs : FS) (h : Handler) (p : String)
    (rest : List String) :
    processFiles fs h (p :: rest) =
      processFiles fs
        (match (createMediaFile fs h p).2 with
          | some mf => addMediaFile fs (createMediaFile fs h p).1 mf
          | none => (createMediaFile fs h p).1) rest := rfl

theorem processFiles_inv (fs : FS) :
    ∀ (ps : List String) (h : Handler), HashInv h →
      HashInv (processFiles fs h ps) := by
  intro ps
  induction ps with
  | nil => intro h hinv; exact hinv
  | cons p rest ih =>
    intro h hinv
    rw [processFiles_cons]
    obtain ⟨hm, hf⟩ := createMediaFile_fields fs h p
    have hinv1 : HashInv (createMediaFile fs h p).1 :=
      hashInv_of_fields _ _ hm hf hinv
    cases (createMediaFile fs h p).2 with
    | none => exact ih _ hinv1
    | some mf => exact ih _ (addMediaFile_inv fs _ mf hinv1)

theorem insertByPath_perm (x : MediaFile) (l : List MediaFile) :
    (insertByPath x l).Perm (x :: l) := by
  induction l with
  | nil => exact List.Perm.refl _
  | cons y ys ih =>
    by_cases hxy : x.path < y.path
    · simp [insertByPath, hxy]
    · simp only [insertByPath, hxy, if_false]
      exact (List.Perm.cons y ih).trans (List.Perm.swap x y ys)

theorem sortByPath_perm (l : List MediaFile) : (sortByPath l).Perm l := by
  induction l with
  | nil => exact List.Perm.refl _
  | cons x xs ih =>
    exact (insertByPath_perm x (sortByPath xs)).trans (List.Perm.cons x ih)

/-- **C1**.  After every successful scan no two records in the catalog share
a (truthy) content hash — `_add_media_file` indexes the first record seen
with each hash and only counts later ones; concretely, scanning a
directory with exactly two byte-identical media files yields one catalog
record (the first file), sets the duplicate counter to one, and performs
no filesystem write (the second file stays on disk). -/
theorem scan_dedup_invariant :
    (∀ (fs : FS) (h : Handler) (dir : String),
      (scan_directory fs h dir).err = none →
      (scan_directory fs h dir).handler.media_files.Pairwise
        (fun a b => ¬ ∃ s, recHashTruthy a = some s ∧ recHashTruthy b = some s)) ∧
    (scan_directory fsTwin emptyHandler "d").err = none ∧
    (scan_directory fsTwin emptyHandler "d").handler.media_files.map
      (fun r => r.path) = ["d/a.jpg"] ∧
    (scan_directory fsTwin emptyHandler "d").handler.scan_stats.duplicates_found
      = 1 ∧
    (scan_directory fsTwin emptyHandler "d").fs = fsTwin := by
  refine ⟨?_, rfl, rfl, rfl, rfl⟩
  intro fs h dir herr
  by_cases hex : fs.pathExistsB dir = true
  · by_cases hdir : fs.dirExistsB dir = true
    · simp only [scan_directory, hex, hdir] at herr ⊢
      simp only [not_true_eq_false, if_false]
      have hinv := processFiles_inv fs ((rglobAll fs dir).filter isMediaFile)
        { media_files := [], file_hashes := [],
          scan_stats := { emptyScanStats with
            total_files_found := ((rglobAll fs dir).filter isMediaFile).length } }
        ⟨by simp, by simp⟩
      exact ((sortByPath_perm _).pairwise_iff
        (fun hab => hashShared_symm hab)).mpr hinv.2
    · simp only [scan_directory, hex, hdir] at herr
      simp at herr
  · simp only [scan_directory, hex] at herr
    simp at herr

theorem scan_dedup_invariant_witness :
    (scan_directory fsPair emptyHandler "s").handler.media_files.Pairwise
      (fun a b => ¬ ∃ s, recHashTruthy a = some s ∧ recHashTruthy b = some s) :=
  scan_dedup_invariant.1 fsPair emptyHandler "s" rfl

/-! Lemmas about the conflict-resolution loop of `move`/`copy`. -/

theorem listVal_append_digit (l : List Char) (c : Char) :
    listVal (l ++ [c]) = listVal l * 10 + charVal c := by
  simp [listVal, List.foldl_append]

theorem charVal_digitChar (n : Nat) (h : n < 10) : charVal (digitChar n) = n := by
  interval_cases n <;> decide

theorem listVal_natDecAux (fuel : Nat) :
    ∀ n, n < fuel → listVal (natDecAux fuel n) = n := by
  induction fuel with
  | zero => intro n h; omega
  | succ f ih =>
    intro n h
    by_cases h10 : n < 10
    · rw [natDecAux, if_pos h10]
      show listVal ([] ++ [digitChar n]) = n
      rw [listVal_append_digit, charVal_digitChar n h10]
      simp [listVal]
    · rw [natDecAux, if_neg h10]
      have hd : n / 10 < n := Nat.div_lt_self (by omega) (by omega)
      rw [listVal_append_digit, ih (n / 10) (by omega),
        charVal_digitChar (n % 10) (Nat.mod_lt _ (by omega))]
      omega

theorem natDecimalL_inj {a b : Nat} (h : natDecimalL a = natDecimalL b) :
    a = b := by
  have ha := listVal_natDecAux (a + 1) a (by omega)
  have hb := listVal_natDecAux (b + 1) b (by omega)
  unfold natDecimalL at h
  rw [h] at ha
  rw [hb] at ha
  exact ha.symm

theorem conflictName_inj (stem sfx : String) {j k : Nat}
    (h : conflictName stem sfx j = conflictName stem sfx k) : j = k := by
  have hd := congrArg String.data h
  have hshape : ∀ n : Nat, (conflictName stem sfx n).data =
      (stem.data ++ ['_'] ++ natDecimalL n) ++ sfx.data := by
    intro n
    rfl
  rw [hshape j, hshape k] at hd
  have h2 := List.append_cancel_right hd
  rw [List.append_assoc, List.append_assoc] at h2
  have h3 := List.append_cancel_left h2
  have h4 := List.append_cancel_left h3
  exact natDecimalL_inj h4

theorem conflictCandidate_str_inj (dest : PPath) {j k : Nat}
    (h : (conflictCandidate dest j).str = (conflictCandidate dest k).str) :
    j = k := by
  have hd := congrArg String.data h
  have hshape : ∀ n : Nat, (conflictCandidate dest n).str.data =
      (dest.dir.data ++ ['/']) ++
        (conflictName (pathStem dest.base) (pathSuffix dest.base) n).data := by
    intro n
    rfl
  rw [hshape j, hshape k] at hd
  have h2 := List.append_cancel_left hd
  exact conflictName_inj _ _ (congrArg String.mk h2)

theorem dictGet_isSome_mem {α : Type} (m : List (String × α)) (k : String)
    (h : (dictGet m k).isSome = true) : k ∈ m.map Prod.fst := by
  induction m with
  | nil => simp [dictGet] at h
  | cons e rest ih =>
    by_cases he : e.1 = k
    · simp [he]
    · rw [dictGet, if_neg he] at h
      simp [ih h]

theorem pathExistsB_mem (fs : FS) (p : String) (h : fs.pathExistsB p = true) :
    p ∈ fs.files.map Prod.fst ++ fs.dirs := by
  unfold FS.pathExistsB at h
  rw [Bool.or_eq_true] at h
  rcases h with h | h
  · exact List.mem_append.mpr (Or.inl (dictGet_isSome_mem _ _ h))
  · refine List.mem_append.mpr (Or.inr ?_)
    unfold FS.dirExistsB at h
    simpa using h

/-- Pigeonhole: among the first `|files| + |dirs| + 1` conflict candidates,
at least one name exists neither as a file nor as a directory. -/
theorem exists_free_candidate (fs : FS) (dest : PPath) :
    ∃ k, 1 ≤ k ∧ k ≤ fs.files.length + fs.dirs.length + 1 ∧
      fs.pathExistsB (conflictCandidate dest k).str = false := by
  by_contra hcon
  push_neg at hcon
  have hall : ∀ k, 1 ≤ k → k ≤ fs.files.length + fs.dirs.length + 1 →
      (conflictCandidate dest k).str ∈ fs.files.map Prod.fst ++ fs.dirs := by
    intro k h1 h2
    have hb := hcon k h1 h2
    rw [Bool.ne_false_iff] at hb
    exact pathExistsB_mem fs _ hb
  have hmaps : ∀ k ∈ Finset.Icc 1 (fs.files.length + fs.dirs.length + 1),
      (conflictCandidate dest k).str ∈
        (fs.files.map Prod.fst ++ fs.dirs).toFinset := by
    intro k hk
    rw [Finset.mem_Icc] at hk
    rw [List.mem_toFinset]
    exact hall k hk.1 hk.2
  have hinj : Set.InjOn (fun k => (conflictCandidate dest k).str)
      (Finset.Icc 1 (fs.files.length + fs.dirs.length + 1)) :=
    fun a _ b _ hab => conflictCandidate_str_inj dest hab
  have hcard := Finset.card_le_card_of_injOn _ hmaps hinj
  rw [Nat.card_Icc] at hcard
  have hlen := List.toFinset_card_le (fs.files.map Prod.fst ++ fs.dirs)
  rw [List.length_append, List.length_map] at hlen
  omega

/-- The fuelled `while destination.exists()` loop returns the first counter
whose candidate exists neither as a file nor as a directory, provided some
counter within the fuel budget is free. -/
theorem conflictSearch_spec (fs : FS) (dest : PPath) :
    ∀ (fuel start : Nat),
      (∃ j, start ≤ j ∧ j < start + fuel ∧
        fs.pathExistsB (conflictCandidate dest j).str = false) →
      fs.pathExistsB
        (conflictCandidate dest (conflictSearch fs dest fuel start)).str = false ∧
      start ≤ conflictSearch fs dest fuel start ∧
      ∀ i, start ≤ i → i < conflictSearch fs dest fuel start →
        fs.pathExistsB (conflictCandidate dest i).str = true := by
  intro fuel
  induction fuel with
  | zero =>
    intro start h
    obtain ⟨j, h1, h2, _⟩ := h
    omega
  | succ f ih =>
    intro start h
    obtain ⟨j, h1, h2, hfree⟩ := h
    rw [conflictSearch]
    by_cases hocc : fs.pathExistsB (conflictCandidate dest start).str = true
    · rw [if_pos hocc]
      have hjs : j ≠ start := by
        rintro rfl
        rw [hfree] at hocc
        exact absurd hocc (by simp)
      obtain ⟨ha, hb, hc⟩ := ih (start + 1) ⟨j, by omega, by omega, hfree⟩
      refine ⟨ha, by omega, ?_⟩
      intro i hi1 hi2
      by_cases his : i = start
      · subst his; exact hocc
      · exact hc i (by omega) hi2
    · rw [if_neg hocc]
      refine ⟨by simpa using hocc, Nat.le_refl _, ?_⟩
      intro i h1 h2
      omega

/-- Behaviour of `resolveConflict` on an occupied destination: the result is
the candidate at `resolvedCounter`, which is at least 1, free (exists
neither as a file nor as a directory), and minimal (every smaller counter
from 1 up names an existing path). -/
theorem resolveConflict_spec (fs : FS) (dest : PPath)
    (h : fs.pathExistsB dest.str = true) :
    resolveConflict fs dest = conflictCandidate dest (resolvedCounter fs dest) ∧
    1 ≤ resolvedCounter fs dest ∧
    fs.pathExistsB
      (conflictCandidate dest (resolvedCounter fs dest)).str = false ∧
    ∀ j, 1 ≤ j → j < resolvedCounter fs dest →
      fs.pathExistsB (conflictCandidate dest j).str = true := by
  obtain ⟨k, hk1, hk2, hkfree⟩ := exists_free_candidate fs dest
  obtain ⟨ha, hb, hc⟩ := conflictSearch_spec fs dest
    (fs.files.length + fs.dirs.length + 1) 1 ⟨k, hk1, by omega, hkfree⟩
  refine ⟨?_, hb, ha, hc⟩
  unfold resolveConflict resolvedCounter
  rw [if_pos h]

/-- The path chosen by the conflict loop never exists (as file or
directory) in the filesystem it was resolved against. -/
theorem resolveConflict_free (fs : FS) (dest : PPath) :
    fs.pathExistsB (resolveConflict fs dest).str = false := by
  by_cases h : fs.pathExistsB dest.str = true
  · obtain ⟨heq, _, hfree, _⟩ := resolveConflict_spec fs dest h
    rw [heq]
    exact hfree
  · unfold resolveConflict
    rw [if_neg h]
    simpa using h

/-- In particular no regular file sits at the chosen path, so a move/copy
to it never overwrites file data. -/
theorem resolveConflict_fileFree (fs : FS) (dest : PPath) :
    fs.fileExistsB (resolveConflict fs dest).str = false := by
  have h := resolveConflict_free fs dest
  unfold FS.pathExistsB at h
  simp only [Bool.or_eq_false_iff] at h
  exact h.1

/-- **C4**.  Conflict resolution for move and copy: when the computed
destination already exists — `Path.exists()` is true for regular files and
for directories alike — the operation instead targets `stem_k + suffix`
for the smallest `k ≥ 1` whose name is free (the result exists neither as
a file nor as a directory, and every counter below it names an existing
path); consequently, copying two different records that render to the same
destination filename produces `x.jpg` and `x_1.jpg`, both present on disk
with their own contents, neither overwriting the other and both sources
intact; a destination occupied by a directory likewise diverts the
operation to `x_1.jpg`. -/
theorem conflict_resolution_smallest_free :
    (∀ (fs : FS) (dest : PPath), fs.pathExistsB dest.str = true →
      resolveConflict fs dest = conflictCandidate dest (resolvedCounter fs dest) ∧
      1 ≤ resolvedCounter fs dest ∧
      fs.pathExistsB
        (conflictCandidate dest (resolvedCounter fs dest)).str = false ∧
      ((List.range' 1 (resolvedCounter fs dest - 1)).all
        (fun j => fs.pathExistsB (conflictCandidate dest j).str)) = true) ∧
    (organize_files fsPair [recA, recB] "out" "x{extension}" "m" "copy"
      false).fs.lookupFile "out/m/x.jpg" = some fdA ∧
    (organize_files fsPair [recA, recB] "out" "x{extension}" "m" "copy"
      false).fs.lookupFile "out/m/x_1.jpg" = some fdB ∧
    (organize_files fsPair [recA, recB] "out" "x{extension}" "m" "copy"
      false).fs.lookupFile "s/a.jpg" = some fdA ∧
    (organize_files fsPair [recA, recB] "out" "x{extension}" "m" "copy"
      false).fs.lookupFile "s/b.jpg" = some fdB ∧
    resolveConflict fsDirOcc ⟨"out", "x.jpg"⟩ = ⟨"out", "x_1.jpg"⟩ := by
  refine ⟨?_, rfl, rfl, rfl, rfl, rfl⟩
  intro fs dest h
  obtain ⟨h1, h2, h3, h4⟩ := resolveConflict_spec fs dest h
  refine ⟨h1, h2, h3, ?_⟩
  rw [List.all_eq_true]
  intro j hj
  rw [List.mem_range'] at hj
  obtain ⟨i, hi, rfl⟩ := hj
  exact h4 (1 + 1 * i) (by omega) (by omega)

theorem conflict_resolution_smallest_free_witness :
    resolveConflict fsConf destConf =
      conflictCandidate destConf (resolvedCounter fsConf destConf) ∧
    1 ≤ resolvedCounter fsConf destConf ∧
    fsConf.pathExistsB
      (conflictCandidate destConf (resolvedCounter fsConf destConf)).str = false ∧
    ((List.range' 1 (resolvedCounter fsConf destConf - 1)).all
      (fun j => fsConf.pathExistsB (conflictCandidate destConf j).str)) = true :=
  conflict_resolution_smallest_free.1 fsConf destConf (by decide)

/-! Lemmas about the dry-run frame of `organize_files`. -/

theorem extract_metadata_path (fs : FS) (r : MediaFile) :
    (r.extract_metadata fs).path = r.path := by
  unfold MediaFile.extract_metadata
  cases fs.lookupFile r.path with
  | none =>
    by_cases he : r.metadata.isEmpty <;> simp [he]
  | some fd => rfl

theorem orgRecordMid_path (r : MediaFile) (fs : FS) :
    (orgRecordMid r fs).path = r.path := by
  unfold orgRecordMid
  by_cases he : r.metadata.isEmpty
  · simp [he, extract_metadata_path]
  · simp [he]

theorem extract_metadata_congr (fs1 fs2 : FS) (r : MediaFile)
    (h : fs1.lookupFile r.path = fs2.lookupFile r.path) :
    r.extract_metadata fs1 = r.extract_metadata fs2 := by
  unfold MediaFile.extract_metadata
  rw [h]

theorem orgRecordMid_congr (fs1 fs2 : FS) (r : MediaFile)
    (h : fs1.lookupFile r.path = fs2.lookupFile r.path) :
    orgRecordMid r fs1 = orgRecordMid r fs2 := by
  unfold orgRecordMid
  rw [extract_metadata_congr fs1 fs2 r h]

theorem stepPrinted_congr (fs1 fs2 : FS) (outDir ftpl fstruct : String)
    (r : MediaFile) (h : fs1.lookupFile r.path = fs2.lookupFile r.path) :
    stepPrinted fs1 outDir ftpl fstruct r =
      stepPrinted fs2 outDir ftpl fstruct r := by
  unfold stepPrinted
  rw [orgRecordMid_congr fs1 fs2 r h]

/-- Each organize iteration prints exactly `stepPrinted` of its record. -/
theorem orgStep_printed (outDir ftpl fstruct op : String) (dry : Bool)
    (st : OrgState) (r : MediaFile) :
    (orgStep outDir ftpl fstruct op dry st r).printed =
      st.printed ++ stepPrinted st.fs outDir ftpl fstruct r := by
  unfold orgStep stepPrinted
  cases hg : r.generate_output_filename ftpl with
  | error e => simp [orgStepFail]
  | ok nf =>
    cases hf : pyFormat (folderTemplateVars (orgRecordMid r st.fs)) fstruct with
    | error e => simp [orgStepFail]
    | ok fp =>
      dsimp only
      obtain ⟨o, _, _, _, _, hp⟩ := orgStepOp_outcome op dry st
        (orgRecordMid r st.fs) ⟨outDir ++ "/" ++ (⟨fp⟩ : String), nf⟩
      rw [hp]

/-- A dry-run iteration leaves the filesystem untouched and appends one
record whose path equals the input record's path. -/
theorem orgStep_dry_state (outDir ftpl fstruct op : String)
    (st : OrgState) (r : MediaFile) :
    (orgStep outDir ftpl fstruct op true st r).fs = st.fs ∧
    ∃ r1, (orgStep outDir ftpl fstruct op true st r).records =
      st.records ++ [r1] ∧ r1.path = r.path := by
  unfold orgStep
  cases hg : r.generate_output_filename ftpl with
  | error e => exact ⟨rfl, r, rfl, rfl⟩
  | ok nf =>
    cases hf : pyFormat (folderTemplateVars (orgRecordMid r st.fs)) fstruct with
    | error e => exact ⟨rfl, orgRecordMid r st.fs, rfl, orgRecordMid_path r st.fs⟩
    | ok fp =>
      dsimp only
      unfold orgStepOp
      rw [if_pos rfl]
      exact ⟨rfl, orgRecordMid r st.fs, rfl, orgRecordMid_path r st.fs⟩

theorem lookupFile_mkdirParents (fs : FS) (d q : String) :
    (fs.mkdirParents d).lookupFile q = fs.lookupFile q := rfl

theorem dictGet_filter_ne {α : Type} (m : List (String × α)) (p q : String)
    (h : q ≠ p) :
    dictGet (m.filter (fun e => e.1 ≠ p)) q = dictGet m q := by
  induction m with
  | nil => rfl
  | cons e rest ih =>
    rw [List.filter_cons]
    by_cases hep : e.1 = p
    · have heq : ¬ e.1 = q := by
        subst hep
        exact fun hq => h hq.symm
      rw [if_neg (by simp [hep]), ih]
      conv_rhs => rw [dictGet]
      rw [if_neg heq]
    · rw [if_pos (by simp [hep])]
      by_cases heq : e.1 = q
      · rw [dictGet, if_pos heq]
        conv_rhs => rw [dictGet]
        rw [if_pos heq]
      · rw [dictGet, if_neg heq, ih]
        conv_rhs => rw [dictGet]
        rw [if_neg heq]

theorem lookupFile_removeFile (fs : FS) (p q : String) (h : q ≠ p) :
    (fs.removeFile p).lookupFile q = fs.lookupFile q :=
  dictGet_filter_ne fs.files p q h

theorem lookupFile_insertFile_ne (fs : FS) (p q : String) (fd : FileData)
    (h : q ≠ p) : (fs.insertFile p fd).lookupFile q = fs.lookupFile q := by
  have hne : ¬ p = q := fun heq => h heq.symm
  unfold FS.insertFile FS.lookupFile
  simp [dictGet, hne]

/-- `shutil.move` via `fsMove` can only create the (free) conflict-resolved
destination and remove the given source: any other existing path keeps its
data. -/
theorem fsMove_lookup (fs : FS) (src : String) (dest : PPath) (q : String)
    (hq1 : q ≠ src) (hex : fs.fileExistsB q = true) :
    (fsMove fs src dest).1.lookupFile q = fs.lookupFile q := by
  unfold fsMove
  dsimp only
  cases hsrc : (fs.mkdirParents dest.dir).lookupFile src with
  | none => rfl
  | some fd =>
    dsimp only
    have hfree := resolveConflict_fileFree (fs.mkdirParents dest.dir) dest
    have hqd : q ≠ (resolveConflict (fs.mkdirParents dest.dir) dest).str := by
      intro hqe
      have hq : (fs.mkdirParents dest.dir).fileExistsB q = true := hex
      rw [hqe, hfree] at hq
      exact absurd hq (by simp)
    rw [lookupFile_insertFile_ne _ _ _ _ hqd, lookupFile_removeFile _ _ _ hq1]
    rfl

theorem fsCopy_lookup (fs : FS) (src : String) (dest : PPath) (q : String)
    (_hq1 : q ≠ src) (hex : fs.fileExistsB q = true) :
    (fsCopy fs src dest).1.lookupFile q = fs.lookupFile q := by
  unfold fsCopy
  dsimp only
  cases hsrc : (fs.mkdirParents dest.dir).lookupFile src with
  | none => rfl
  | some fd =>
    dsimp only
    have hfree := resolveConflict_fileFree (fs.mkdirParents dest.dir) dest
    have hqd : q ≠ (resolveConflict (fs.mkdirParents dest.dir) dest).str := by
      intro hqe
      have hq : (fs.mkdirParents dest.dir).fileExistsB q = true := hex
      rw [hqe, hfree] at hq
      exact absurd hq (by simp)
    rw [lookupFile_insertFile_ne _ _ _ _ hqd]
    rfl

/-- A non-dry iteration can only create the (free) conflict-resolved
destination and remove its own record's source: the data found at any
other existing path is untouched. -/
theorem orgStep_wet_lookup (outDir ftpl fstruct op : String)
    (st : OrgState) (r : MediaFile) (q : String)
    (hne : q ≠ r.path) (hex : st.fs.fileExistsB q = true) :
    (orgStep outDir ftpl fstruct op false st r).fs.lookupFile q =
      st.fs.lookupFile q := by
  unfold orgStep
  cases hg : r.generate_output_filename ftpl with
  | error e => rfl
  | ok nf =>
    cases hf : pyFormat (folderTemplateVars (orgRecordMid r st.fs)) fstruct with
    | error e => rfl
    | ok fp =>
      have hq1 : q ≠ (orgRecordMid r st.fs).path := by
        rw [orgRecordMid_path]
        exact hne
      dsimp only
      unfold orgStepOp
      rw [if_neg (by simp)]
      by_cases hmv : op = "move"
      · rw [if_pos hmv]
        have hl := fsMove_lookup st.fs (orgRecordMid r st.fs).path
          ⟨outDir ++ "/" ++ (⟨fp⟩ : String), nf⟩ q hq1 hex
        rcases hres : fsMove st.fs (orgRecordMid r st.fs).path
          ⟨outDir ++ "/" ++ (⟨fp⟩ : String), nf⟩ with ⟨fs1, res⟩
        rw [hres] at hl
        cases res with
        | ok p2 => exact hl
        | error e => exact hl
      · rw [if_neg hmv]
        by_cases hcp : op = "copy"
        · rw [if_pos hcp]
          have hl := fsCopy_lookup st.fs (orgRecordMid r st.fs).path
            ⟨outDir ++ "/" ++ (⟨fp⟩ : String), nf⟩ q hq1 hex
          rcases hres : fsCopy st.fs (orgRecordMid r st.fs).path
            ⟨outDir ++ "/" ++ (⟨fp⟩ : String), nf⟩ with ⟨fs1, res⟩
          rw [hres] at hl
          cases res with
          | ok p2 => exact hl
          | error e => exact hl
        · rw [if_neg hcp]

theorem org_dry_printed_fold (outDir ftpl fstruct op : String) (fs0 : FS) :
    ∀ (recs : List MediaFile) (st : OrgState), st.fs = fs0 →
      (recs.foldl (orgStep outDir ftpl fstruct op true) st).printed =
        st.printed ++ (recs.map (stepPrinted fs0 outDir ftpl fstruct)).flatten := by
  intro recs
  induction recs with
  | nil => intro st hfs; simp
  | cons r rest ih =>
    intro st hfs
    rw [List.foldl_cons,
      ih _ ((orgStep_dry_state outDir ftpl fstruct op st r).1.trans hfs),
      orgStep_printed, hfs]
    simp

theorem org_dry_state_fold (outDir ftpl fstruct op : String) :
    ∀ (recs : List MediaFile) (st : OrgState),
      (recs.foldl (orgStep outDir ftpl fstruct op true) st).fs = st.fs ∧
      (recs.foldl (orgStep outDir ftpl fstruct op true) st).records.map
        (fun x => x.path) =
        st.records.map (fun x => x.path) ++ recs.map (fun x => x.path) := by
  intro recs
  induction recs with
  | nil => intro st; simp
  | cons r rest ih =>
    intro st
    obtain ⟨hfs, r1, hrec, hpath⟩ := orgStep_dry_state outDir ftpl fstruct op st r
    rw [List.foldl_cons]
    obtain ⟨ih1, ih2⟩ := ih (orgStep outDir ftpl fstruct op true st r)
    constructor
    · rw [ih1, hfs]
    · rw [ih2, hrec]
      simp [hpath]

theorem org_wet_printed_fold (outDir ftpl fstruct op : String) (fs0 : FS) :
    ∀ (recs : List MediaFile) (st : OrgState),
      recs.Pairwise (fun a b => a.path ≠ b.path) →
      (∀ r ∈ recs, (fs0.lookupFile r.path).isSome = true) →
      (∀ r ∈ recs, st.fs.lookupFile r.path = fs0.lookupFile r.path) →
      (recs.foldl (orgStep outDir ftpl fstruct op false) st).printed =
        st.printed ++ (recs.map (stepPrinted fs0 outDir ftpl fstruct)).flatten := by
  intro recs
  induction recs with
  | nil =>
    intro st _ _ _
    simp
  | cons r rest ih =>
    intro st hnd hex hw
    rw [List.foldl_cons]
    have hwr := hw r (by simp)
    have hprint : stepPrinted st.fs outDir ftpl fstruct r =
        stepPrinted fs0 outDir ftpl fstruct r :=
      stepPrinted_congr _ _ _ _ _ r hwr
    have hnext : ∀ q ∈ rest,
        (orgStep outDir ftpl fstruct op false st r).fs.lookupFile q.path =
          fs0.lookupFile q.path := by
      intro q hq
      have hqr : q.path ≠ r.path :=
        Ne.symm ((List.pairwise_cons.mp hnd).1 q hq)
      have hqex : st.fs.fileExistsB q.path = true := by
        unfold FS.fileExistsB
        rw [hw q (List.mem_cons_of_mem r hq)]
        exact hex q (List.mem_cons_of_mem r hq)
      rw [orgStep_wet_lookup outDir ftpl fstruct op st r q.path hqr hqex]
      exact hw q (List.mem_cons_of_mem r hq)
    rw [ih _ (List.pairwise_cons.mp hnd).2
      (fun q hq => hex q (List.mem_cons_of_mem r hq)) hnext,
      orgStep_printed, hprint]
    simp

/-- **C6**.  Organizing with `dry_run=true` performs zero filesystem
mutations (no directory creation, no copy, no move) and changes no record
path, regardless of the operation mode; and for catalogs of existing,
pairwise-distinct files (as every scan produces) it reports exactly the
same per-record destination lines as the non-dry run over the same records
computes. -/
theorem organize_dry_run_frame (fs : FS) (recs : List MediaFile)
    (outDir ftpl fstruct op : String)
    (hnd : recs.Pairwise (fun a b => a.path ≠ b.path))
    (hex : ∀ r ∈ recs, (fs.lookupFile r.path).isSome = true) :
    (organize_files fs recs outDir ftpl fstruct op true).fs = fs ∧
    (organize_files fs recs outDir ftpl fstruct op true).records.map
      (fun x => x.path) = recs.map (fun x => x.path) ∧
    (organize_files fs recs outDir ftpl fstruct op true).printed =
      (organize_files fs recs outDir ftpl fstruct op false).printed := by
  obtain ⟨h1, h2⟩ := org_dry_state_fold outDir ftpl fstruct op recs
    ⟨fs, [], [], [], ⟨0, 0, 0⟩⟩
  refine ⟨h1, by simpa using h2, ?_⟩
  show (List.foldl (orgStep outDir ftpl fstruct op true) _ recs).printed =
    (List.foldl (orgStep outDir ftpl fstruct op false) _ recs).printed
  rw [org_dry_printed_fold outDir ftpl fstruct op fs recs _ rfl,
    org_wet_printed_fold outDir ftpl fstruct op fs recs _ hnd hex
      (fun q hq => rfl)]

theorem organize_dry_run_frame_witness :
    (organize_files fsPair [recA, recB] "out" "x{extension}" "m" "copy" true).fs
      = fsPair ∧
    (organize_files fsPair [recA, recB] "out" "x{extension}" "m" "copy"
      true).records.map (fun x => x.path) =
      [recA, recB].map (fun x => x.path) ∧
    (organize_files fsPair [recA, recB] "out" "x{extension}" "m" "copy"
      true).printed =
    (organize_files fsPair [recA, recB] "out" "x{extension}" "m" "copy"
      false).printed :=
  organize_dry_run_frame fsPair [recA, recB] "out" "x{extension}" "m" "copy"
    (by simp [List.pairwise_cons]; decide) (by decide)

end MediaOrganizer
